import Mathlib

/-!
Pawn-shop ledger (`src/src/code.cpp`).

A shallow embedding of the device hierarchy (`ElectronicDevice`, `MobilePhone`,
`Tablet`) and of the ledger (`PawnShop`) together with the properties proved
about them.

Numbers.  `int` is the 32-bit two's complement type.  The fields of a device
are only stored, compared and converted, and are kept as `Int`.  The balance
is the one `int` that is computed: a sum that leaves the range of `int` is
undefined behaviour in C++ and wraps around on the usual targets, and a
`float` whose truncation leaves the range converts to `INT_MIN` there; the
model follows that behaviour, and the theorems on the value of the balance
carry the hypothesis that the result fits in `int`.  `float` is IEEE-754 binary32
with round-to-nearest, ties-to-even, each operation being rounded to binary32
(`FLT_EVAL_METHOD` 0).  Every `float` the program computes is
either zero or has magnitude between `2^-23` and `2^33`, so neither the
exponent range nor subnormal numbers play a role, and a value is modelled
exactly by a pair `mant * 2^expo` that is rounded to 24 significant bits after
each operation.
-/

namespace PawnShopModel

/-! ## binary32 arithmetic -/

/-- A binary32 value, written `mant * 2 ^ expo`. -/
structure F32 where
  mant : Int
  expo : Int
deriving DecidableEq, Repr

/-- The quotient `n / 2 ^ k` rounded to the nearest integer, ties to even. -/
def roundShift (n k : Nat) : Nat :=
  if k = 0 then n
  else
    let q := n / 2 ^ k
    let r := n % 2 ^ k
    let h := 2 ^ (k - 1)
    if r < h then q
    else if h < r then q + 1
    else if q % 2 = 0 then q
    else q + 1

/-- The number of binary digits of `n`, counted with at most `fuel` halvings. -/
def bitLengthAux : Nat → Nat → Nat
  | 0, _ => 0
  | fuel + 1, n => if n = 0 then 0 else bitLengthAux fuel (n / 2) + 1

/-- The number of binary digits of `n` (`0` for `0`). -/
def bitLength (n : Nat) : Nat := bitLengthAux n n

/-- Rounding of the exact value `m * 2 ^ e` to 24 significant bits. -/
def F32.round (m e : Int) : F32 :=
  let a := m.natAbs
  let k := bitLength a - 24
  ⟨Int.sign m * (roundShift a k : Int), e + (k : Int)⟩

/-- The conversion `static_cast<float>(i)`. -/
def F32.ofInt (i : Int) : F32 := F32.round i 0

/-- The binary32 product. -/
def F32.mul (x y : F32) : F32 := F32.round (x.mant * y.mant) (x.expo + y.expo)

/-- The binary32 sum. -/
def F32.add (x y : F32) : F32 :=
  let e := min x.expo y.expo
  F32.round (x.mant * 2 ^ (x.expo - e).toNat + y.mant * 2 ^ (y.expo - e).toNat) e

/-- The least value of `int`. -/
def INT_MIN : Int := -2147483648

/-- The greatest value of `int`. -/
def INT_MAX : Int := 2147483647

/-- The `int` that holds the result `x` of an `int` addition: `x` itself when
it is in the range of `int`, and `x` reduced modulo `2^32` into the range
otherwise. -/
def wrapInt (x : Int) : Int := (x + 2147483648) % 4294967296 - 2147483648

/-- The integer part of a binary32 value: truncation toward zero. -/
def F32.trunc (x : F32) : Int :=
  if 0 ≤ x.expo then x.mant * 2 ^ x.expo.toNat
  else Int.tdiv x.mant (2 ^ (-x.expo).toNat)

/-- The conversion `static_cast<int>(x)`: the integer part when it is in the
range of `int`, and `INT_MIN` otherwise. -/
def F32.toInt (x : F32) : Int :=
  if INT_MIN ≤ x.trunc ∧ x.trunc ≤ INT_MAX then x.trunc else INT_MIN

/-- The rational number a binary32 value stands for. -/
def F32.toRat (x : F32) : ℚ := (x.mant : ℚ) * (2 : ℚ) ^ x.expo

/-- The literal `1.0f`. -/
def F32.lit_1_0 : F32 := ⟨1, 0⟩

/-- The literal `0.40f`: the binary32 value nearest to 2/5. -/
def F32.lit_0_40 : F32 := ⟨13421773, -25⟩

/-- The literal `0.30f`: the binary32 value nearest to 3/10. -/
def F32.lit_0_30 : F32 := ⟨10066330, -25⟩

/-- The literal `1.30f`: the binary32 value nearest to 13/10. -/
def F32.lit_1_30 : F32 := ⟨10905190, -23⟩

/-! ## Devices -/

/-- The dynamic type of a device: the base class or one of the two derived
classes, with the derived class's own field. -/
inductive DeviceClass where
  | ElectronicDevice
  | MobilePhone (supported5GNetwork : Bool)
  | Tablet (allowedPhoneCall : Bool)
deriving DecidableEq, Repr

/-- The fields of `class ElectronicDevice`, with the dynamic type. -/
structure ElectronicDevice where
  imei : Int
  priceOfPledge : Int
  manufacturer : String
  allowedForSale : Bool
  sold : Bool
  cls : DeviceClass
deriving DecidableEq, Repr

/-- The constructor `ElectronicDevice(imei, price, manufacturer, forSale)`. -/
def ElectronicDevice.new (imei price : Int) (manufacturer : String) (forSale : Bool) :
    ElectronicDevice :=
  ⟨imei, price, manufacturer, forSale, false, DeviceClass.ElectronicDevice⟩

/-- The constructor `MobilePhone(imei, price, manufacturer, forSale, supports5G)`. -/
def MobilePhone (imei price : Int) (manufacturer : String) (forSale supports5G : Bool) :
    ElectronicDevice :=
  { ElectronicDevice.new imei price manufacturer forSale with
    cls := DeviceClass.MobilePhone supports5G }

/-- The constructor `Tablet(imei, price, manufacturer, forSale, canMakePhoneCall)`. -/
def Tablet (imei price : Int) (manufacturer : String) (forSale canMakePhoneCall : Bool) :
    ElectronicDevice :=
  { ElectronicDevice.new imei price manufacturer forSale with
    cls := DeviceClass.Tablet canMakePhoneCall }

/-- The text `cond ? "Yes" : "No"`. -/
def yesNo (b : Bool) : String := if b then "Yes" else "No"

/-- The base-class `getDeviceInfo`. -/
def ElectronicDevice.baseDeviceInfo (d : ElectronicDevice) : String :=
  "IMEI: " ++ toString d.imei ++
  "\nManufacturer: " ++ d.manufacturer ++
  "\nPrice of Pledge: " ++ toString d.priceOfPledge ++
  "\nAllowed for Sale: " ++ yesNo d.allowedForSale ++
  "\nSold: " ++ yesNo d.sold

/-- The virtual `getDeviceInfo`. -/
def ElectronicDevice.getDeviceInfo (d : ElectronicDevice) : String :=
  match d.cls with
  | DeviceClass.ElectronicDevice => d.baseDeviceInfo
  | DeviceClass.MobilePhone supported5GNetwork =>
      d.baseDeviceInfo ++ "\nSupports 5G Network: " ++ yesNo supported5GNetwork
  | DeviceClass.Tablet allowedPhoneCall =>
      d.baseDeviceInfo ++ "\nCan Make Phone Calls: " ++ yesNo allowedPhoneCall

/-- The virtual `calculateSellingPrice`. -/
def ElectronicDevice.calculateSellingPrice (d : ElectronicDevice) : F32 :=
  match d.cls with
  | DeviceClass.ElectronicDevice => F32.ofInt d.priceOfPledge
  | DeviceClass.MobilePhone supported5GNetwork =>
      let additionalPercentage := if supported5GNetwork then F32.lit_0_40 else F32.lit_0_30
      F32.mul (F32.ofInt d.priceOfPledge) (F32.add F32.lit_1_0 additionalPercentage)
  | DeviceClass.Tablet _ => F32.mul (F32.ofInt d.priceOfPledge) F32.lit_1_30

/-- The method `markAsSold`; the message written to `std::cout` in the other
branch is not part of the state. -/
def ElectronicDevice.markAsSold (d : ElectronicDevice) : ElectronicDevice :=
  if d.allowedForSale then { d with sold := true } else d

/-! ## The ledger -/

/-- The fields of `class PawnShop`. -/
structure PawnShop where
  account : Int
  electronicDevices : List ElectronicDevice
deriving DecidableEq, Repr

/-- The constructor `PawnShop()`. -/
def PawnShop.new : PawnShop := ⟨0, []⟩

/-- The position `std::find_if` returns: the index of the first element
satisfying `p`, or the length of the list (the end iterator). -/
def find_if {α : Type} (p : α → Bool) : List α → Nat
  | [] => 0
  | x :: xs => if p x then 0 else find_if p xs + 1

/-- The range `std::remove_if` leaves in front of the iterator it returns: the
elements not satisfying `p`, in their original order. -/
def remove_if {α : Type} (p : α → Bool) : List α → List α
  | [] => []
  | x :: xs => if p x then remove_if p xs else x :: remove_if p xs

/-- The predicate of both lambdas: `getImei() == imei && !isSold()`. -/
def unsoldWithImei (imei : Int) (device : ElectronicDevice) : Bool :=
  device.imei == imei && !device.sold

/-- The compound assignment `account += price` with a `float` right-hand side. -/
def addFloatToInt (account : Int) (price : F32) : Int :=
  F32.toInt (F32.add (F32.ofInt account) price)

/-- The method `pledgeDevice`. -/
def PawnShop.pledgeDevice (s : PawnShop) (device : ElectronicDevice) : PawnShop :=
  { account := wrapInt (s.account + device.priceOfPledge)
    electronicDevices := s.electronicDevices ++ [device] }

/-- The method `sellDevice`: the returned flag and the state afterwards. -/
def PawnShop.sellDevice (s : PawnShop) (imei : Int) : Bool × PawnShop :=
  let it := find_if (unsoldWithImei imei) s.electronicDevices
  if h : it < s.electronicDevices.length then
    let device := s.electronicDevices.get ⟨it, h⟩
    (true, { account := addFloatToInt s.account device.calculateSellingPrice
             electronicDevices := s.electronicDevices.set it device.markAsSold })
  else (false, s)

/-- The method `releaseDevice`: the returned flag and the state afterwards.
The iterator returned by `std::remove_if` differs from `end()` exactly when the
retained range is shorter than the vector. -/
def PawnShop.releaseDevice (s : PawnShop) (imei : Int) : Bool × PawnShop :=
  let kept := remove_if (unsoldWithImei imei) s.electronicDevices
  if kept.length ≠ s.electronicDevices.length then
    (true, { s with electronicDevices := kept })
  else (false, s)

/-- The loop shared by `showAvailableDevices` and `showSoldDevices`. -/
def showDevices (wantSold : Bool) : List ElectronicDevice → String
  | [] => ""
  | device :: rest =>
      if device.sold = wantSold then device.getDeviceInfo ++ "\n" ++ showDevices wantSold rest
      else showDevices wantSold rest

/-- The method `showAvailableDevices`. -/
def PawnShop.showAvailableDevices (s : PawnShop) : String :=
  showDevices false s.electronicDevices

/-- The method `showSoldDevices`. -/
def PawnShop.showSoldDevices (s : PawnShop) : String :=
  showDevices true s.electronicDevices

/-- The method `getAccountBalance`. -/
def PawnShop.getAccountBalance (s : PawnShop) : Int := s.account

/-! ## Runs of the ledger -/

/-- One call of a mutating method of `PawnShop`. -/
inductive Op where
  | pledge (device : ElectronicDevice)
  | sell (imei : Int)
  | release (imei : Int)
deriving DecidableEq, Repr

/-- The state after one call; the returned flag is dropped. -/
def Op.apply (s : PawnShop) : Op → PawnShop
  | Op.pledge device => s.pledgeDevice device
  | Op.sell imei => (s.sellDevice imei).2
  | Op.release imei => (s.releaseDevice imei).2

/-- The state after a sequence of calls on a ledger built by `PawnShop()`. -/
def run (ops : List Op) : PawnShop := ops.foldl Op.apply PawnShop.new

/-- A pledged device comes straight from a constructor: its `sold` is `false`. -/
def Op.isFresh : Op → Bool
  | Op.pledge device => !device.sold
  | _ => true

/-- The sum of the pledge prices of the devices handed to `pledgeDevice`. -/
def pledgedTotal : List Op → Int
  | [] => 0
  | Op.pledge device :: ops => device.priceOfPledge + pledgedTotal ops
  | _ :: ops => pledgedTotal ops

/-- The sum of the selling prices of the devices marked sold. -/
def soldTotal : List ElectronicDevice → ℚ
  | [] => 0
  | device :: rest =>
      if device.sold then device.calculateSellingPrice.toRat + soldTotal rest
      else soldTotal rest

/-- The device `d` at index `i` is the first one, in insertion order, with the
identifier `imei` and `sold = false`. -/
def IsFirstUnsold (l : List ElectronicDevice) (imei : Int) (i : Nat)
    (d : ElectronicDevice) : Prop :=
  l[i]? = some d ∧ d.imei = imei ∧ d.sold = false ∧
    ∀ e ∈ l.take i, ¬ (e.imei = imei ∧ e.sold = false)

/-- The ledger of the scenario of the specification: two devices pledged and
sold, then a phone that is not for sale pledged. -/
def scenarioLedger : PawnShop :=
  run [Op.pledge (MobilePhone 1 100 "Acme" true true), Op.sell 1,
       Op.pledge (Tablet 2 200 "Bolt" true false), Op.sell 2,
       Op.pledge (MobilePhone 3 50 "Core" false false)]

/-- Every device marked sold is allowed for sale. -/
def SoldAllowed (l : List ElectronicDevice) : Prop :=
  ∀ d ∈ l, d.sold = true → d.allowedForSale = true

/-- The amount a call hands out for a pledge: the pledge price for
`pledgeDevice`, nothing for the other calls. -/
def Op.pledgePrice : Op → Int
  | Op.pledge device => device.priceOfPledge
  | _ => 0

/-- A call on the ledger `s` that credits exactly: a pledged device is freshly
constructed and the balance with its pledge price added fits in `int`; a sale
hits a device allowed for sale whose selling price is a whole number `v`, the
balance before and after the credit being below `2^24` in magnitude, the range
in which binary32 holds every integer. -/
def Op.Exact (s : PawnShop) : Op → Prop
  | Op.pledge device => device.sold = false ∧
      INT_MIN ≤ s.account + device.priceOfPledge ∧ s.account + device.priceOfPledge ≤ INT_MAX
  | Op.sell imei => ∀ i d, IsFirstUnsold s.electronicDevices imei i d →
      d.allowedForSale = true ∧ s.account.natAbs < 2 ^ 24 ∧
      ∃ v : Int, d.calculateSellingPrice.toRat = v ∧ (s.account + v).natAbs < 2 ^ 24
  | Op.release _ => True

/-- Every call of the sequence, started on `s`, credits exactly. -/
def ExactRun : PawnShop → List Op → Prop
  | _, [] => True
  | s, op :: ops => op.Exact s ∧ ExactRun (op.apply s) ops

/-- The devices the loop of `showDevices` describes: those whose `sold` equals
`wantSold`, in insertion order. -/
def listedDevices (wantSold : Bool) (l : List ElectronicDevice) : List ElectronicDevice :=
  l.filter (fun device => device.sold == wantSold)

/-- The text made of the descriptions of the given devices, each one followed
by a newline character. -/
def describeAll : List ElectronicDevice → String
  | [] => ""
  | device :: rest => device.getDeviceInfo ++ "\n" ++ describeAll rest

/-- The ledger after `n` consecutive calls `sellDevice(imei)`. -/
def sellTimes (imei : Int) : Nat → PawnShop → PawnShop
  | 0, s => s
  | n + 1, s => sellTimes imei n (s.sellDevice imei).2

/-! ## Lemmas on binary32 values -/

theorem F32.lit_0_40_nearest :
    |F32.lit_0_40.toRat - 2 / 5| ≤ (2 : ℚ) ^ (-26 : ℤ) ∧
      2 ^ 23 ≤ F32.lit_0_40.mant ∧ F32.lit_0_40.mant < 2 ^ 24 := by
  refine ⟨?_, by decide, by decide⟩
  rw [abs_le]
  constructor <;> norm_num [F32.toRat, F32.lit_0_40]

theorem F32.lit_0_30_nearest :
    |F32.lit_0_30.toRat - 3 / 10| ≤ (2 : ℚ) ^ (-26 : ℤ) ∧
      2 ^ 23 ≤ F32.lit_0_30.mant ∧ F32.lit_0_30.mant < 2 ^ 24 := by
  refine ⟨?_, by decide, by decide⟩
  rw [abs_le]
  constructor <;> norm_num [F32.toRat, F32.lit_0_30]

theorem F32.lit_1_30_nearest :
    |F32.lit_1_30.toRat - 13 / 10| ≤ (2 : ℚ) ^ (-24 : ℤ) ∧
      2 ^ 23 ≤ F32.lit_1_30.mant ∧ F32.lit_1_30.mant < 2 ^ 24 := by
  refine ⟨?_, by decide, by decide⟩
  rw [abs_le]
  constructor <;> norm_num [F32.toRat, F32.lit_1_30]

theorem F32.markup_values :
    F32.add F32.lit_1_0 F32.lit_0_40 = ⟨11744051, -23⟩ ∧
      F32.add F32.lit_1_0 F32.lit_0_30 = F32.lit_1_30 := by
  constructor <;> decide

theorem bitLengthAux_le (fuel n k : Nat) (h : n < 2 ^ k) : bitLengthAux fuel n ≤ k := by
  induction fuel generalizing n k with
  | zero => simp [bitLengthAux]
  | succ f ih =>
    unfold bitLengthAux
    split
    · exact Nat.zero_le _
    · rename_i hn
      cases k with
      | zero => simp at h; exact absurd h hn
      | succ j =>
        have : n / 2 < 2 ^ j := by
          rw [Nat.div_lt_iff_lt_mul (by norm_num)]
          rw [pow_succ] at h
          exact h
        have := ih (n / 2) j this
        omega

theorem bitLength_le (n k : Nat) (h : n < 2 ^ k) : bitLength n ≤ k :=
  bitLengthAux_le n n k h

theorem roundShift_of_dvd (n k : Nat) (h : 2 ^ k ∣ n) : roundShift n k * 2 ^ k = n := by
  unfold roundShift
  split
  · rename_i hk
    subst hk
    simp
  · have hr : n % 2 ^ k = 0 := Nat.mod_eq_zero_of_dvd h
    have hpos : 0 < 2 ^ (k - 1) := Nat.pow_pos (by norm_num)
    simp only [hr, hpos, if_true]
    exact Nat.div_mul_cancel h

theorem F32.round_toRat_of_exact (m e : Int) (c t : Nat) (hc : c < 2 ^ 24)
    (hm : m.natAbs = c * 2 ^ t) : (F32.round m e).toRat = (m : ℚ) * (2 : ℚ) ^ e := by
  have hlt : m.natAbs < 2 ^ (24 + t) := by
    rw [hm, pow_add]
    exact Nat.mul_lt_mul_of_pos_right hc (Nat.pow_pos (by norm_num))
  have hK : bitLength m.natAbs - 24 ≤ t := by
    have := bitLength_le _ _ hlt
    omega
  have hdvd : 2 ^ (bitLength m.natAbs - 24) ∣ m.natAbs := by
    have h2 : 2 ^ (bitLength m.natAbs - 24) ∣ c * 2 ^ t :=
      Dvd.dvd.mul_left (pow_dvd_pow 2 hK) c
    rw [← hm] at h2
    exact h2
  have hrs := roundShift_of_dvd _ _ hdvd
  have hrsQ : ((roundShift m.natAbs (bitLength m.natAbs - 24) : ℕ) : ℚ)
      * (2 : ℚ) ^ (bitLength m.natAbs - 24) = (m.natAbs : ℚ) := by
    exact_mod_cast hrs
  have hsign : ((Int.sign m : ℤ) : ℚ) * (m.natAbs : ℚ) = (m : ℚ) := by
    have h1 : ((Int.sign m * (m.natAbs : ℤ) : ℤ) : ℚ) = (m : ℚ) := by
      rw [Int.sign_mul_natAbs]
    rw [← h1, Int.cast_mul, Int.cast_natCast]
  simp only [F32.round, F32.toRat]
  rw [zpow_add₀ (by norm_num : (2 : ℚ) ≠ 0), zpow_natCast]
  push_cast
  rw [← hsign, ← hrsQ]
  ring

theorem F32.ofInt_toRat (a : Int) (h : a.natAbs < 2 ^ 24) : (F32.ofInt a).toRat = a := by
  have := F32.round_toRat_of_exact a 0 a.natAbs 0 h (by simp)
  simpa [F32.ofInt] using this

theorem wrapInt_of_inRange (x : Int) (h₁ : INT_MIN ≤ x) (h₂ : x ≤ INT_MAX) :
    wrapInt x = x := by
  unfold INT_MIN at h₁
  unfold INT_MAX at h₂
  unfold wrapInt
  omega

theorem wrapInt_inRange (x : Int) : INT_MIN ≤ wrapInt x ∧ wrapInt x ≤ INT_MAX := by
  unfold INT_MIN INT_MAX wrapInt
  omega

theorem F32.toInt_of_inRange (x : F32) (h₁ : INT_MIN ≤ x.trunc) (h₂ : x.trunc ≤ INT_MAX) :
    x.toInt = x.trunc := by
  unfold F32.toInt
  rw [if_pos ⟨h₁, h₂⟩]

theorem F32.toInt_inRange (x : F32) : INT_MIN ≤ x.toInt ∧ x.toInt ≤ INT_MAX := by
  unfold F32.toInt
  split
  · assumption
  · exact ⟨le_refl _, by decide⟩

theorem F32.trunc_of_toRat (x : F32) (n : Int) (h : x.toRat = n) : x.trunc = n := by
  unfold F32.toRat at h
  unfold F32.trunc
  split
  · rename_i he
    have hq : ((x.mant * 2 ^ x.expo.toNat : ℤ) : ℚ) = (n : ℚ) := by
      push_cast
      rw [← h, ← zpow_natCast, Int.toNat_of_nonneg he]
    exact_mod_cast hq
  · rename_i he
    have hneg : 0 ≤ -x.expo := by omega
    have hq : ((n * 2 ^ (-x.expo).toNat : ℤ) : ℚ) = (x.mant : ℚ) := by
      push_cast
      rw [← h, ← zpow_natCast, Int.toNat_of_nonneg hneg, mul_assoc, ← zpow_add₀ (by norm_num : (2 : ℚ) ≠ 0)]
      simp
    have hz : x.mant = n * 2 ^ (-x.expo).toNat := by exact_mod_cast hq.symm
    rw [hz]
    exact Int.mul_tdiv_cancel _ (by positivity)

theorem F32.add_toRat_of_exact (x y : F32) (n : Int) (hsum : x.toRat + y.toRat = n)
    (hn : n.natAbs < 2 ^ 24) : (F32.add x y).toRat = n := by
  have h2 : (2 : ℚ) ≠ 0 := by norm_num
  have hx : 0 ≤ x.expo - min x.expo y.expo := by
    have := min_le_left x.expo y.expo
    omega
  have hy : 0 ≤ y.expo - min x.expo y.expo := by
    have := min_le_right x.expo y.expo
    omega
  have hM : ((x.mant * 2 ^ (x.expo - min x.expo y.expo).toNat
      + y.mant * 2 ^ (y.expo - min x.expo y.expo).toNat : ℤ) : ℚ)
      * (2 : ℚ) ^ (min x.expo y.expo) = n := by
    rw [← hsum]
    unfold F32.toRat
    push_cast
    rw [← zpow_natCast, ← zpow_natCast, Int.toNat_of_nonneg hx, Int.toNat_of_nonneg hy,
      add_mul, mul_assoc, mul_assoc, ← zpow_add₀ h2, ← zpow_add₀ h2]
    simp
  have key : ∃ c t : Nat, c < 2 ^ 24 ∧
      (x.mant * 2 ^ (x.expo - min x.expo y.expo).toNat
        + y.mant * 2 ^ (y.expo - min x.expo y.expo).toNat).natAbs = c * 2 ^ t := by
    generalize x.mant * 2 ^ (x.expo - min x.expo y.expo).toNat
        + y.mant * 2 ^ (y.expo - min x.expo y.expo).toNat = M at hM
    generalize min x.expo y.expo = e at hM
    rcases le_or_lt 0 e with he | he
    · refine ⟨M.natAbs, 0, ?_, by simp⟩
      have hz : M * 2 ^ e.toNat = n := by
        have : ((M * 2 ^ e.toNat : ℤ) : ℚ) = (n : ℚ) := by
          push_cast
          rw [← hM, ← zpow_natCast, Int.toNat_of_nonneg he]
        exact_mod_cast this
      have habs : M.natAbs * 2 ^ e.toNat = n.natAbs := by
        rw [← hz, Int.natAbs_mul, Int.natAbs_pow]
        rfl
      have hpos : 0 < 2 ^ e.toNat := Nat.pow_pos (by norm_num)
      calc M.natAbs ≤ M.natAbs * 2 ^ e.toNat := Nat.le_mul_of_pos_right _ hpos
        _ = n.natAbs := habs
        _ < 2 ^ 24 := hn
    · refine ⟨n.natAbs, (-e).toNat, hn, ?_⟩
      have hneg : 0 ≤ -e := by omega
      have hz : M = n * 2 ^ (-e).toNat := by
        have : ((n * 2 ^ (-e).toNat : ℤ) : ℚ) = (M : ℚ) := by
          push_cast
          rw [← hM, ← zpow_natCast, Int.toNat_of_nonneg hneg, mul_assoc, ← zpow_add₀ h2]
          simp
        exact_mod_cast this.symm
      rw [hz, Int.natAbs_mul, Int.natAbs_pow]
      rfl
  obtain ⟨c, t, hc, hct⟩ := key
  have := F32.round_toRat_of_exact _ (min x.expo y.expo) c t hc hct
  unfold F32.add
  simp only
  rw [this, hM]

theorem addFloatToInt_of_whole (account : Int) (price : F32) (v : Int)
    (hprice : price.toRat = v) (ha : account.natAbs < 2 ^ 24)
    (hs : (account + v).natAbs < 2 ^ 24) : addFloatToInt account price = account + v := by
  have htrunc : (F32.add (F32.ofInt account) price).trunc = account + v := by
    apply F32.trunc_of_toRat
    apply F32.add_toRat_of_exact _ _ _ _ hs
    rw [F32.ofInt_toRat account ha, hprice]
    push_cast
    rfl
  unfold addFloatToInt
  rw [F32.toInt_of_inRange, htrunc]
  · rw [htrunc]
    unfold INT_MIN
    omega
  · rw [htrunc]
    unfold INT_MAX
    omega


theorem bitLengthAux_lower (fuel n j : Nat) (h : j < bitLengthAux fuel n) : 2 ^ j ≤ n := by
  induction fuel generalizing n j with
  | zero => simp [bitLengthAux] at h
  | succ f ih =>
    unfold bitLengthAux at h
    split at h
    · exact absurd h (Nat.not_lt_zero _)
    · rename_i hn
      cases j with
      | zero => simp; omega
      | succ i =>
        have hi : i < bitLengthAux f (n / 2) := by omega
        have := ih (n / 2) i hi
        rw [pow_succ]
        omega

theorem bitLengthAux_upper (fuel n : Nat) (h : n ≤ fuel) : n < 2 ^ bitLengthAux fuel n := by
  induction fuel generalizing n with
  | zero =>
    have : n = 0 := by omega
    subst this
    simp [bitLengthAux]
  | succ f ih =>
    unfold bitLengthAux
    split
    · rename_i hn
      subst hn
      simp
    · rename_i hn
      have := ih (n / 2) (by omega)
      rw [pow_succ]
      omega

theorem roundShift_error (n k : Nat) :
    roundShift n k * 2 ^ k ≤ n + 2 ^ k / 2 ∧ n ≤ roundShift n k * 2 ^ k + 2 ^ k / 2 := by
  unfold roundShift
  split
  · rename_i hk
    subst hk
    simp
  · rename_i hk
    obtain ⟨j, rfl⟩ : ∃ j, k = j + 1 := ⟨k - 1, by omega⟩
    have hdm := Nat.div_add_mod n (2 ^ (j + 1))
    have hlt : n % 2 ^ (j + 1) < 2 ^ (j + 1) := Nat.mod_lt _ (Nat.pow_pos (by norm_num))
    have h2 : 2 ^ (j + 1) = 2 * 2 ^ j := by rw [pow_succ]; ring
    have hhalf : 2 ^ (j + 1) / 2 = 2 ^ j := by rw [h2]; simp
    simp only [Nat.add_sub_cancel, hhalf]
    generalize n / 2 ^ (j + 1) = q at hdm ⊢
    generalize n % 2 ^ (j + 1) = r at hdm hlt ⊢
    rw [h2] at hdm hlt ⊢
    generalize 2 ^ j = h at hdm hlt ⊢
    split
    · constructor <;> nlinarith
    · split
      · constructor <;> nlinarith
      · split
        · constructor <;> nlinarith
        · constructor <;> nlinarith

theorem bitLength_shift_bound (a : Nat) :
    2 ^ (bitLength a - 24) / 2 * 2 ^ 24 ≤ a := by
  rcases Nat.eq_zero_or_pos (bitLength a - 24) with h0 | hpos
  · rw [h0]
    simp
  · obtain ⟨j, hj⟩ : ∃ j, bitLength a - 24 = j + 1 := ⟨bitLength a - 24 - 1, by omega⟩
    have hlt : j + 24 < bitLengthAux a a := by
      unfold bitLength at hj
      omega
    have := bitLengthAux_lower a a (j + 24) hlt
    rw [hj]
    have h2 : 2 ^ (j + 1) / 2 = 2 ^ j := by rw [pow_succ]; simp
    rw [h2, ← pow_add]
    exact this

theorem F32.round_error (m e : Int) :
    |(F32.round m e).toRat - (m : ℚ) * (2 : ℚ) ^ e| ≤ |(m : ℚ)| * (2 : ℚ) ^ e / 2 ^ 24 := by
  have h2 : (2 : ℚ) ≠ 0 := by norm_num
  have hpos : (0 : ℚ) < (2 : ℚ) ^ e := zpow_pos (by norm_num) e
  obtain ⟨hup, hlow⟩ := roundShift_error m.natAbs (bitLength m.natAbs - 24)
  have hE := bitLength_shift_bound m.natAbs
  generalize hrs : roundShift m.natAbs (bitLength m.natAbs - 24) = rs at hup hlow
  generalize hk : bitLength m.natAbs - 24 = k at hup hlow hE hrs
  generalize hEE : 2 ^ k / 2 = E at hup hlow hE
  have hupQ : (rs : ℚ) * (2 : ℚ) ^ k ≤ (m.natAbs : ℚ) + E := by exact_mod_cast hup
  have hlowQ : (m.natAbs : ℚ) ≤ (rs : ℚ) * (2 : ℚ) ^ k + E := by exact_mod_cast hlow
  have hEQ : (E : ℚ) * 2 ^ 24 ≤ (m.natAbs : ℚ) := by exact_mod_cast hE
  have habs : ((m.natAbs : ℕ) : ℚ) = |(m : ℚ)| := by
    rw [Nat.cast_natAbs, Int.cast_abs]
  have hsign : ((Int.sign m : ℤ) : ℚ) * (m.natAbs : ℚ) = (m : ℚ) := by
    have h1 : ((Int.sign m * (m.natAbs : ℤ) : ℤ) : ℚ) = (m : ℚ) := by
      rw [Int.sign_mul_natAbs]
    rw [← h1, Int.cast_mul, Int.cast_natCast]
  have hsign1 : |((Int.sign m : ℤ) : ℚ)| ≤ 1 := by
    rcases lt_trichotomy m 0 with h | h | h
    · simp [Int.sign_eq_neg_one_of_neg h]
    · simp [h]
    · simp [Int.sign_eq_one_of_pos h]
  have hval : (F32.round m e).toRat
      = ((Int.sign m : ℤ) : ℚ) * ((rs : ℚ) * (2 : ℚ) ^ k) * (2 : ℚ) ^ e := by
    simp only [F32.round, F32.toRat, hk, hrs]
    rw [zpow_add₀ h2, zpow_natCast]
    push_cast
    ring
  have hdiff : (F32.round m e).toRat - (m : ℚ) * (2 : ℚ) ^ e
      = ((Int.sign m : ℤ) : ℚ) * ((rs : ℚ) * (2 : ℚ) ^ k - (m.natAbs : ℚ)) * (2 : ℚ) ^ e := by
    rw [hval]
    linear_combination (2 : ℚ) ^ e * hsign
  have hX : |(rs : ℚ) * (2 : ℚ) ^ k - (m.natAbs : ℚ)| ≤ (E : ℚ) := by
    rw [abs_le]
    constructor <;> linarith
  have hE0 : (0 : ℚ) ≤ (E : ℚ) := by positivity
  rw [hdiff, abs_mul, abs_mul, abs_of_pos hpos, ← habs]
  have step1 : |((Int.sign m : ℤ) : ℚ)| * |(rs : ℚ) * (2 : ℚ) ^ k - (m.natAbs : ℚ)|
      ≤ 1 * (E : ℚ) := mul_le_mul hsign1 hX (abs_nonneg _) (by norm_num)
  have step2 : (E : ℚ) ≤ (m.natAbs : ℚ) / 2 ^ 24 := by
    rw [le_div_iff₀ (by positivity)]
    exact hEQ
  calc |((Int.sign m : ℤ) : ℚ)| * |(rs : ℚ) * (2 : ℚ) ^ k - (m.natAbs : ℚ)| * (2 : ℚ) ^ e
      ≤ (1 * (E : ℚ)) * (2 : ℚ) ^ e := mul_le_mul_of_nonneg_right step1 hpos.le
    _ ≤ ((m.natAbs : ℚ) / 2 ^ 24) * (2 : ℚ) ^ e := by
        rw [one_mul]
        exact mul_le_mul_of_nonneg_right step2 hpos.le
    _ = (m.natAbs : ℚ) * (2 : ℚ) ^ e / 2 ^ 24 := by ring

theorem F32.ofInt_error (p : Int) : |(F32.ofInt p).toRat - (p : ℚ)| ≤ |(p : ℚ)| / 2 ^ 24 := by
  have := F32.round_error p 0
  simpa [F32.ofInt] using this

theorem F32.mul_error (x y : F32) :
    |(F32.mul x y).toRat - x.toRat * y.toRat| ≤ |x.toRat * y.toRat| / 2 ^ 24 := by
  have h2 : (2 : ℚ) ≠ 0 := by norm_num
  have hval : ((x.mant * y.mant : ℤ) : ℚ) * (2 : ℚ) ^ (x.expo + y.expo)
      = x.toRat * y.toRat := by
    unfold F32.toRat
    rw [zpow_add₀ h2]
    push_cast
    ring
  have hpos : (0 : ℚ) < (2 : ℚ) ^ (x.expo + y.expo) := zpow_pos (by norm_num) _
  have := F32.round_error (x.mant * y.mant) (x.expo + y.expo)
  rw [hval] at this
  have habs : |((x.mant * y.mant : ℤ) : ℚ)| * (2 : ℚ) ^ (x.expo + y.expo)
      = |x.toRat * y.toRat| := by
    rw [← hval, abs_mul, abs_of_pos hpos]
  rw [habs] at this
  exact this

theorem F32.markup_error (p : Int) (c : F32) (t : ℚ) (hc0 : 0 ≤ c.toRat)
    (hc1 : c.toRat ≤ 7 / 5) (hct : |c.toRat - t| ≤ (4 / 5) / 2 ^ 24) :
    |(F32.mul (F32.ofInt p) c).toRat - (p : ℚ) * t| ≤ |(p : ℚ)| / 2 ^ 22 := by
  have h1 := F32.ofInt_error p
  have h2 := F32.mul_error (F32.ofInt p) c
  generalize (F32.mul (F32.ofInt p) c).toRat = r at h2 ⊢
  generalize (F32.ofInt p).toRat = f at h1 h2
  generalize c.toRat = C at hc0 hc1 hct h2
  have hP : 0 ≤ |(p : ℚ)| := abs_nonneg _
  have hf : |f| ≤ |(p : ℚ)| + |(p : ℚ)| / 2 ^ 24 := by
    have := abs_sub_abs_le_abs_sub f (p : ℚ)
    linarith
  have hfC : |f * C| ≤ (|(p : ℚ)| + |(p : ℚ)| / 2 ^ 24) * (7 / 5) := by
    rw [abs_mul, abs_of_nonneg hc0]
    exact mul_le_mul hf hc1 hc0 (by positivity)
  have e2 : |f * C - (p : ℚ) * C| ≤ |(p : ℚ)| / 2 ^ 24 * (7 / 5) := by
    rw [← sub_mul, abs_mul, abs_of_nonneg hc0]
    exact mul_le_mul h1 hc1 hc0 (by positivity)
  have e3 : |(p : ℚ) * C - (p : ℚ) * t| ≤ |(p : ℚ)| * ((4 / 5) / 2 ^ 24) := by
    rw [← mul_sub, abs_mul]
    exact mul_le_mul_of_nonneg_left hct hP
  have tri : |r - (p : ℚ) * t|
      ≤ |r - f * C| + |f * C - (p : ℚ) * C| + |(p : ℚ) * C - (p : ℚ) * t| := by
    have a1 := abs_sub_le r (f * C) ((p : ℚ) * t)
    have a2 := abs_sub_le (f * C) ((p : ℚ) * C) ((p : ℚ) * t)
    linarith
  have h2' : |r - f * C| ≤ (|(p : ℚ)| + |(p : ℚ)| / 2 ^ 24) * (7 / 5) / 2 ^ 24 := by
    refine le_trans h2 ?_
    exact div_le_div_of_nonneg_right hfC (by positivity)
  generalize |(p : ℚ)| = P at *
  norm_num at *
  linarith

theorem roundShift_le (n k : Nat) : roundShift n k ≤ n / 2 ^ k + 1 := by
  unfold roundShift
  split
  · rename_i hk
    subst hk
    simp
  · simp only
    split
    · omega
    · split
      · omega
      · split <;> omega

theorem F32.round_mant_le (m e : Int) : (F32.round m e).mant.natAbs ≤ 2 ^ 24 := by
  have hup := bitLengthAux_upper m.natAbs m.natAbs (le_refl _)
  have hlen : bitLength m.natAbs ≤ (bitLength m.natAbs - 24) + 24 := by omega
  have hlt : m.natAbs < 2 ^ ((bitLength m.natAbs - 24) + 24) :=
    lt_of_lt_of_le hup (Nat.pow_le_pow_right (by norm_num) hlen)
  have hq : m.natAbs / 2 ^ (bitLength m.natAbs - 24) < 2 ^ 24 := by
    rw [Nat.div_lt_iff_lt_mul (Nat.pow_pos (by norm_num))]
    rw [pow_add, mul_comm] at hlt
    exact hlt
  have hrs := roundShift_le m.natAbs (bitLength m.natAbs - 24)
  have hsign : (Int.sign m).natAbs ≤ 1 := by
    rcases lt_trichotomy m 0 with h | h | h
    · simp [Int.sign_eq_neg_one_of_neg h]
    · simp [h]
    · simp [Int.sign_eq_one_of_pos h]
  simp only [F32.round, Int.natAbs_mul, Int.natAbs_ofNat]
  calc (Int.sign m).natAbs * roundShift m.natAbs (bitLength m.natAbs - 24)
      ≤ 1 * roundShift m.natAbs (bitLength m.natAbs - 24) := Nat.mul_le_mul_right _ hsign
    _ ≤ 2 ^ 24 := by omega


/-! ## Lemmas on `find_if` and `remove_if` -/

theorem find_if_le_length {α : Type} (p : α → Bool) (l : List α) :
    find_if p l ≤ l.length := by
  induction l with
  | nil => simp [find_if]
  | cons x xs ih =>
    by_cases hx : p x = true
    · simp [find_if, hx]
    · simp [find_if, hx, ih]

theorem find_if_lt_iff {α : Type} (p : α → Bool) (l : List α) :
    find_if p l < l.length ↔ ∃ x ∈ l, p x = true := by
  induction l with
  | nil => simp [find_if]
  | cons x xs ih =>
    by_cases hx : p x = true
    · simp [find_if, hx]
    · simp [find_if, hx, ih]

theorem find_if_get {α : Type} (p : α → Bool) (l : List α)
    (h : find_if p l < l.length) : p (l.get ⟨find_if p l, h⟩) = true := by
  induction l with
  | nil => simp [find_if] at h
  | cons x xs ih =>
    by_cases hx : p x = true
    · simp [find_if, hx]
    · simp only [find_if, hx] at h ⊢
      simpa using ih (by simpa using h)

theorem find_if_take {α : Type} (p : α → Bool) (l : List α) :
    ∀ x ∈ l.take (find_if p l), p x = false := by
  induction l with
  | nil => simp [find_if]
  | cons x xs ih =>
    by_cases hx : p x = true
    · simp [find_if, hx]
    · simp only [find_if, hx, Bool.false_eq_true, if_false, List.take_succ_cons,
        List.mem_cons]
      rintro y (rfl | hy)
      · simpa using hx
      · exact ih y hy

theorem find_if_unique {α : Type} (p : α → Bool) (l : List α) (i : Nat) (x : α)
    (hx : l[i]? = some x) (hp : p x = true) (hbefore : ∀ y ∈ l.take i, p y = false) :
    find_if p l = i := by
  induction l generalizing i with
  | nil => simp at hx
  | cons a as ih =>
    cases i with
    | zero =>
      simp at hx
      subst hx
      simp [find_if, hp]
    | succ j =>
      have ha : p a = false := hbefore a (by simp)
      simp only [find_if, ha, Bool.false_eq_true, if_false, Nat.add_right_cancel_iff]
      apply ih j
      · simpa using hx
      · intro y hy
        exact hbefore y (by simp [hy])

theorem remove_if_eq_filter {α : Type} (p : α → Bool) (l : List α) :
    remove_if p l = l.filter (fun x => !p x) := by
  induction l with
  | nil => rfl
  | cons x xs ih =>
    by_cases hx : p x = true
    · simp [remove_if, hx, ih]
    · simp [remove_if, hx, ih]

theorem remove_if_length_le {α : Type} (p : α → Bool) (l : List α) :
    (remove_if p l).length ≤ l.length := by
  rw [remove_if_eq_filter]
  exact List.length_filter_le _ _

theorem remove_if_length_eq_iff {α : Type} (p : α → Bool) (l : List α) :
    (remove_if p l).length = l.length ↔ ∀ x ∈ l, p x = false := by
  induction l with
  | nil => simp [remove_if]
  | cons x xs ih =>
    by_cases hx : p x = true
    · have := remove_if_length_le p xs
      simp only [remove_if, hx, if_true, List.length_cons, List.mem_cons, forall_eq_or_imp]
      constructor
      · intro h; omega
      · intro h; simp [hx] at h
    · simp [remove_if, hx, ih]

theorem unsoldWithImei_iff (imei : Int) (d : ElectronicDevice) :
    unsoldWithImei imei d = true ↔ d.imei = imei ∧ d.sold = false := by
  simp [unsoldWithImei]

/-! ## `sellDevice` -/

theorem sellDevice_of_not_found (s : PawnShop) (imei : Int)
    (h : ∀ d ∈ s.electronicDevices, ¬ (d.imei = imei ∧ d.sold = false)) :
    s.sellDevice imei = (false, s) := by
  have hnot : ¬ find_if (unsoldWithImei imei) s.electronicDevices < s.electronicDevices.length := by
    rw [find_if_lt_iff]
    rintro ⟨d, hd, hp⟩
    exact h d hd ((unsoldWithImei_iff imei d).1 hp)
  simp [PawnShop.sellDevice, hnot]

theorem sellDevice_of_firstUnsold (s : PawnShop) (imei : Int) (i : Nat) (d : ElectronicDevice)
    (h : IsFirstUnsold s.electronicDevices imei i d) :
    s.sellDevice imei =
      (true, { account := addFloatToInt s.account d.calculateSellingPrice
               electronicDevices := s.electronicDevices.set i d.markAsSold }) := by
  obtain ⟨hget, himei, hsold, hbefore⟩ := h
  have hfind : find_if (unsoldWithImei imei) s.electronicDevices = i := by
    apply find_if_unique _ _ i d hget ((unsoldWithImei_iff imei d).2 ⟨himei, hsold⟩)
    intro y hy
    have := hbefore y hy
    cases hp : unsoldWithImei imei y
    · rfl
    · exact absurd ((unsoldWithImei_iff imei y).1 hp) this
  have hlt : i < s.electronicDevices.length := by
    rcases Nat.lt_or_ge i s.electronicDevices.length with h | h
    · exact h
    · rw [List.getElem?_eq_none h] at hget
      cases hget
  have hd : s.electronicDevices.get ⟨i, hlt⟩ = d := by
    have := List.getElem?_eq_getElem hlt
    rw [this] at hget
    simpa using hget
  simp only [PawnShop.sellDevice, hfind, hlt, dite_true, hd]

theorem firstUnsold_of_exists (l : List ElectronicDevice) (imei : Int)
    (h : ∃ d ∈ l, d.imei = imei ∧ d.sold = false) :
    ∃ i d, IsFirstUnsold l imei i d := by
  have hlt : find_if (unsoldWithImei imei) l < l.length := by
    rw [find_if_lt_iff]
    obtain ⟨d, hd, hp⟩ := h
    exact ⟨d, hd, (unsoldWithImei_iff imei d).2 hp⟩
  refine ⟨find_if (unsoldWithImei imei) l, l.get ⟨_, hlt⟩, ?_, ?_, ?_, ?_⟩
  · simp [List.getElem?_eq_getElem hlt]
  · exact ((unsoldWithImei_iff imei _).1 (find_if_get _ l hlt)).1
  · exact ((unsoldWithImei_iff imei _).1 (find_if_get _ l hlt)).2
  · intro e he hp
    have := find_if_take (unsoldWithImei imei) l e he
    rw [(unsoldWithImei_iff imei e).2 hp] at this
    cases this

/-! ## `releaseDevice` -/

theorem releaseDevice_of_none (s : PawnShop) (imei : Int)
    (h : ∀ d ∈ s.electronicDevices, ¬ (d.imei = imei ∧ d.sold = false)) :
    s.releaseDevice imei = (false, s) := by
  have hlen : (remove_if (unsoldWithImei imei) s.electronicDevices).length
      = s.electronicDevices.length := by
    rw [remove_if_length_eq_iff]
    intro d hd
    cases hp : unsoldWithImei imei d
    · rfl
    · exact absurd ((unsoldWithImei_iff imei d).1 hp) (h d hd)
  simp [PawnShop.releaseDevice, hlen]

theorem releaseDevice_devices (s : PawnShop) (imei : Int) :
    (s.releaseDevice imei).2.electronicDevices
      = s.electronicDevices.filter (fun d => !unsoldWithImei imei d) := by
  by_cases hlen : (remove_if (unsoldWithImei imei) s.electronicDevices).length
      = s.electronicDevices.length
  · have hall := (remove_if_length_eq_iff _ _).1 hlen
    simp only [PawnShop.releaseDevice, hlen, ne_eq, not_true_eq_false, if_false]
    symm
    rw [List.filter_eq_self]
    intro d hd
    simp [hall d hd]
  · simp only [PawnShop.releaseDevice, hlen, ne_eq, not_false_eq_true, if_true]
    exact remove_if_eq_filter _ _

theorem releaseDevice_account (s : PawnShop) (imei : Int) :
    (s.releaseDevice imei).2.account = s.account := by
  unfold PawnShop.releaseDevice
  by_cases hlen : (remove_if (unsoldWithImei imei) s.electronicDevices).length
      = s.electronicDevices.length <;> simp [hlen]

theorem releaseDevice_flag (s : PawnShop) (imei : Int) :
    (s.releaseDevice imei).1 = true ↔
      ∃ d ∈ s.electronicDevices, d.imei = imei ∧ d.sold = false := by
  by_cases hlen : (remove_if (unsoldWithImei imei) s.electronicDevices).length
      = s.electronicDevices.length
  · have hall := (remove_if_length_eq_iff _ _).1 hlen
    simp only [PawnShop.releaseDevice, hlen, ne_eq, not_true_eq_false, if_false]
    constructor
    · intro h; cases h
    · rintro ⟨d, hd, hp⟩
      have := hall d hd
      rw [(unsoldWithImei_iff imei d).2 hp] at this
      cases this
  · have hex : ¬ ∀ x ∈ s.electronicDevices, unsoldWithImei imei x = false := by
      rw [← remove_if_length_eq_iff]; exact hlen
    simp only [PawnShop.releaseDevice, hlen, ne_eq, not_false_eq_true, if_true, true_iff]
    by_contra hno
    apply hex
    intro d hd
    cases hp : unsoldWithImei imei d
    · rfl
    · exact absurd ⟨d, hd, (unsoldWithImei_iff imei d).1 hp⟩ hno

/-! ## Sold devices along one call -/

theorem markAsSold_of_sold (d : ElectronicDevice) (h : d.sold = true) : d.markAsSold = d := by
  unfold ElectronicDevice.markAsSold
  split
  · cases d
    simp only at h
    simp [h]
  · rfl

theorem markAsSold_of_allowed (d : ElectronicDevice) (h : d.allowedForSale = true) :
    d.markAsSold = { d with sold := true } := by
  simp [ElectronicDevice.markAsSold, h]

theorem markAsSold_of_not_allowed (d : ElectronicDevice) (h : d.allowedForSale = false) :
    d.markAsSold = d := by
  simp [ElectronicDevice.markAsSold, h]

theorem firstUnsold_lt {l : List ElectronicDevice} {imei : Int} {i : Nat}
    {d : ElectronicDevice} (h : IsFirstUnsold l imei i d) : i < l.length := by
  rcases Nat.lt_or_ge i l.length with hlt | hge
  · exact hlt
  · have := h.1
    rw [List.getElem?_eq_none hge] at this
    cases this

theorem sold_sublist_set (l : List ElectronicDevice) (i : Nat) (d x : ElectronicDevice)
    (hget : l[i]? = some d) (hd : d.sold = false) :
    List.Sublist (l.filter (fun e => e.sold)) ((l.set i x).filter (fun e => e.sold)) := by
  induction l generalizing i with
  | nil => simp
  | cons a as ih =>
    cases i with
    | zero =>
      simp only [List.getElem?_cons_zero, Option.some.injEq] at hget
      subst hget
      simp only [List.set_cons_zero, List.filter_cons, hd, Bool.false_eq_true, if_false]
      split
      · exact List.Sublist.cons _ (List.Sublist.refl _)
      · exact List.Sublist.refl _
    | succ j =>
      have hj : as[j]? = some d := by simpa using hget
      simp only [List.set_cons_succ, List.filter_cons]
      split
      · exact List.Sublist.cons₂ _ (ih j hj)
      · exact ih j hj

theorem sold_filter_release (l : List ElectronicDevice) (imei : Int) :
    (l.filter (fun d => !unsoldWithImei imei d)).filter (fun e => e.sold)
      = l.filter (fun e => e.sold) := by
  rw [List.filter_filter]
  apply List.filter_congr
  intro d _
  cases hs : d.sold <;> simp [unsoldWithImei, hs]

theorem sold_sublist_apply (s : PawnShop) (op : Op) :
    List.Sublist (s.electronicDevices.filter (fun e => e.sold))
      ((op.apply s).electronicDevices.filter (fun e => e.sold)) := by
  cases op with
  | pledge device =>
    simp only [Op.apply, PawnShop.pledgeDevice, List.filter_append]
    exact List.sublist_append_left _ _
  | sell imei =>
    by_cases hex : ∃ d ∈ s.electronicDevices, d.imei = imei ∧ d.sold = false
    · obtain ⟨i, d, hfirst⟩ := firstUnsold_of_exists _ _ hex
      simp only [Op.apply, sellDevice_of_firstUnsold s imei i d hfirst]
      exact sold_sublist_set _ i d _ hfirst.1 hfirst.2.2.1
    · have hno : ∀ d ∈ s.electronicDevices, ¬ (d.imei = imei ∧ d.sold = false) :=
        fun d hd hp => hex ⟨d, hd, hp⟩
      simp only [Op.apply, sellDevice_of_not_found s imei hno]
      exact List.Sublist.refl _
  | release imei =>
    simp only [Op.apply, releaseDevice_devices, sold_filter_release]
    exact List.Sublist.refl _

theorem soldAllowed_apply (s : PawnShop) (op : Op) (hfresh : op.isFresh = true)
    (h : SoldAllowed s.electronicDevices) : SoldAllowed (op.apply s).electronicDevices := by
  cases op with
  | pledge device =>
    intro d hd hs
    simp only [Op.apply, PawnShop.pledgeDevice, List.mem_append, List.mem_singleton] at hd
    rcases hd with hd | rfl
    · exact h d hd hs
    · simp [Op.isFresh, hs] at hfresh
  | sell imei =>
    by_cases hex : ∃ d ∈ s.electronicDevices, d.imei = imei ∧ d.sold = false
    · obtain ⟨i, d, hfirst⟩ := firstUnsold_of_exists _ _ hex
      intro e he hs
      simp only [Op.apply, sellDevice_of_firstUnsold s imei i d hfirst] at he
      rcases List.mem_or_eq_of_mem_set he with he | rfl
      · exact h e he hs
      · cases ha : d.allowedForSale
        · rw [markAsSold_of_not_allowed d ha] at hs
          rw [hfirst.2.2.1] at hs
          cases hs
        · rw [markAsSold_of_allowed d ha]
          exact ha
    · have hno : ∀ d ∈ s.electronicDevices, ¬ (d.imei = imei ∧ d.sold = false) :=
        fun d hd hp => hex ⟨d, hd, hp⟩
      simp only [Op.apply, sellDevice_of_not_found s imei hno]
      exact h
  | release imei =>
    intro d hd hs
    simp only [Op.apply, releaseDevice_devices] at hd
    exact h d (List.mem_of_mem_filter hd) hs

theorem soldAllowed_foldl (ops : List Op) (s : PawnShop)
    (hfresh : ∀ op ∈ ops, op.isFresh = true) (h : SoldAllowed s.electronicDevices) :
    SoldAllowed (ops.foldl Op.apply s).electronicDevices := by
  induction ops generalizing s with
  | nil => exact h
  | cons op ops ih =>
    simp only [List.foldl_cons]
    apply ih
    · intro o ho
      exact hfresh o (List.mem_cons_of_mem _ ho)
    · exact soldAllowed_apply s op (hfresh op (List.mem_cons_self _ _)) h

/-! ## The balance along a run -/

theorem firstUnsold_unique {l : List ElectronicDevice} {imei : Int} {i : Nat}
    {d : ElectronicDevice} (h : IsFirstUnsold l imei i d) :
    i = find_if (unsoldWithImei imei) l ∧ l[find_if (unsoldWithImei imei) l]? = some d := by
  obtain ⟨hget, himei, hsold, hbefore⟩ := h
  have hfind : find_if (unsoldWithImei imei) l = i := by
    apply find_if_unique _ _ i d hget ((unsoldWithImei_iff imei d).2 ⟨himei, hsold⟩)
    intro y hy
    cases hp : unsoldWithImei imei y
    · rfl
    · exact absurd ((unsoldWithImei_iff imei y).1 hp) (hbefore y hy)
  rw [hfind]
  exact ⟨rfl, hget⟩

theorem soldTotal_cons (a : ElectronicDevice) (as : List ElectronicDevice) :
    soldTotal (a :: as)
      = if a.sold then a.calculateSellingPrice.toRat + soldTotal as else soldTotal as := rfl

theorem soldTotal_append (l₁ l₂ : List ElectronicDevice) :
    soldTotal (l₁ ++ l₂) = soldTotal l₁ + soldTotal l₂ := by
  induction l₁ with
  | nil => simp [soldTotal]
  | cons a as ih =>
    rw [List.cons_append, soldTotal_cons, soldTotal_cons, ih]
    split
    · ring
    · rfl

theorem soldTotal_set (l : List ElectronicDevice) (i : Nat) (d : ElectronicDevice)
    (hget : l[i]? = some d) (hd : d.sold = false) :
    soldTotal (l.set i { d with sold := true })
      = soldTotal l + d.calculateSellingPrice.toRat := by
  induction l generalizing i with
  | nil => simp at hget
  | cons a as ih =>
    cases i with
    | zero =>
      simp only [List.getElem?_cons_zero, Option.some.injEq] at hget
      subst hget
      simp only [List.set_cons_zero, soldTotal, hd, Bool.false_eq_true, if_false, if_true]
      have : ({ a with sold := true } : ElectronicDevice).calculateSellingPrice
          = a.calculateSellingPrice := rfl
      rw [this]
      ring
    | succ j =>
      have hj : as[j]? = some d := by simpa using hget
      simp only [List.set_cons_succ, soldTotal, ih j hj]
      split
      · ring
      · rfl

theorem soldTotal_release (l : List ElectronicDevice) (imei : Int) :
    soldTotal (l.filter (fun d => !unsoldWithImei imei d)) = soldTotal l := by
  induction l with
  | nil => rfl
  | cons a as ih =>
    cases hs : a.sold
    · by_cases hp : unsoldWithImei imei a = true
      · simp [List.filter_cons, hp, soldTotal, hs, ih]
      · simp [List.filter_cons, hp, soldTotal, hs, ih]
    · have hp : unsoldWithImei imei a = false := by simp [unsoldWithImei, hs]
      simp [List.filter_cons, hp, soldTotal, hs, ih]

theorem pledgedTotal_cons (op : Op) (ops : List Op) :
    pledgedTotal (op :: ops) = op.pledgePrice + pledgedTotal ops := by
  cases op <;> simp [pledgedTotal, Op.pledgePrice]

theorem exact_apply (s : PawnShop) (op : Op) (h : op.Exact s) :
    ((op.apply s).account : ℚ) - soldTotal (op.apply s).electronicDevices
      = (s.account : ℚ) - soldTotal s.electronicDevices + (op.pledgePrice : ℚ) := by
  cases op with
  | pledge device =>
    obtain ⟨hd, h₁, h₂⟩ := h
    simp only [Op.apply, PawnShop.pledgeDevice, Op.pledgePrice, soldTotal_append, soldTotal, hd,
      wrapInt_of_inRange _ h₁ h₂]
    push_cast
    simp
    ring
  | sell imei =>
    by_cases hex : ∃ d ∈ s.electronicDevices, d.imei = imei ∧ d.sold = false
    · obtain ⟨i, d, hfirst⟩ := firstUnsold_of_exists _ _ hex
      obtain ⟨hallowed, ha, v, hv, hsum⟩ := h i d hfirst
      simp only [Op.apply, sellDevice_of_firstUnsold s imei i d hfirst, Op.pledgePrice,
        markAsSold_of_allowed d hallowed, soldTotal_set _ i d hfirst.1 hfirst.2.2.1,
        addFloatToInt_of_whole s.account _ v hv ha hsum, hv]
      push_cast
      ring
    · have hno : ∀ d ∈ s.electronicDevices, ¬ (d.imei = imei ∧ d.sold = false) :=
        fun d hd hp => hex ⟨d, hd, hp⟩
      simp [Op.apply, sellDevice_of_not_found s imei hno, Op.pledgePrice]
  | release imei =>
    simp [Op.apply, releaseDevice_devices, releaseDevice_account, soldTotal_release,
      Op.pledgePrice]

theorem exact_foldl (ops : List Op) (s : PawnShop) (h : ExactRun s ops) :
    ((ops.foldl Op.apply s).account : ℚ) - soldTotal (ops.foldl Op.apply s).electronicDevices
      = (s.account : ℚ) - soldTotal s.electronicDevices + (pledgedTotal ops : ℚ) := by
  induction ops generalizing s with
  | nil => simp [pledgedTotal]
  | cons op ops ih =>
    obtain ⟨hop, hrest⟩ := h
    rw [List.foldl_cons, ih _ hrest, exact_apply s op hop, pledgedTotal_cons]
    push_cast
    ring

theorem exact_sell_of (s : PawnShop) (imei : Int) (d : ElectronicDevice) (v : Int)
    (hd : s.electronicDevices[find_if (unsoldWithImei imei) s.electronicDevices]? = some d)
    (hallowed : d.allowedForSale = true) (ha : s.account.natAbs < 2 ^ 24)
    (hv : d.calculateSellingPrice.toRat = v) (hs : (s.account + v).natAbs < 2 ^ 24) :
    (Op.sell imei).Exact s := by
  intro i e hfirst
  have he := (firstUnsold_unique hfirst).2
  rw [hd] at he
  cases he
  exact ⟨hallowed, ha, v, hv, hs⟩

/-! ## Selling twice -/

theorem no_unsold_after_set (l : List ElectronicDevice) (imei : Int) (i : Nat)
    (d x : ElectronicDevice) (hfirst : IsFirstUnsold l imei i d) (hx : x.sold = true)
    (hafter : ∀ e ∈ l.drop (i + 1), ¬ (e.imei = imei ∧ e.sold = false)) :
    ∀ e ∈ l.set i x, ¬ (e.imei = imei ∧ e.sold = false) := by
  intro e he
  rw [List.set_eq_take_append_cons_drop, if_pos (firstUnsold_lt hfirst)] at he
  simp only [List.mem_append, List.mem_cons] at he
  rcases he with he | rfl | he
  · exact hfirst.2.2.2 e he
  · rintro ⟨_, hs⟩
    rw [hx] at hs
    cases hs
  · exact hafter e he

/-! ## The claims -/

/-- C1 (the code at the failing input): in the scenario ledger the balance is
750 and the only device with identifier 3 is unsold and not for sale; yet
`sellDevice 3` returns `true` and raises the balance to 815, leaving the
devices as they were. -/
theorem C1_sell_of_ineligible_device_succeeds :
    scenarioLedger.account = 750 ∧
    IsFirstUnsold scenarioLedger.electronicDevices 3 2 (MobilePhone 3 50 "Core" false false) ∧
    (MobilePhone 3 50 "Core" false false).allowedForSale = false ∧
    scenarioLedger.sellDevice 3 = (true, { scenarioLedger with account := 815 }) := by
  refine ⟨by decide, ⟨by decide, by decide, by decide, by decide⟩, by decide, by decide⟩

/-- C2 as stated fails: on the ledger holding only the freshly pledged phone
`MobilePhone(1, 1, forSale = true, 5G = true)` (balance 1), that phone is the
first unsold device with identifier 1 and it is allowed for sale, but
`sellDevice 1` raises the balance to 2, which is not the balance plus the
selling price `11744051 / 2^23` (about 1.4). -/
theorem C2_counterexample :
    IsFirstUnsold (PawnShop.new.pledgeDevice (MobilePhone 1 1 "Acme" true true)).electronicDevices
      1 0 (MobilePhone 1 1 "Acme" true true) ∧
    (MobilePhone 1 1 "Acme" true true).allowedForSale = true ∧
    (((PawnShop.new.pledgeDevice (MobilePhone 1 1 "Acme" true true)).sellDevice 1).2.account : ℚ)
      ≠ ((PawnShop.new.pledgeDevice (MobilePhone 1 1 "Acme" true true)).account : ℚ)
        + (MobilePhone 1 1 "Acme" true true).calculateSellingPrice.toRat := by
  refine ⟨⟨by decide, by decide, by decide, by decide⟩, by decide, ?_⟩
  have h1 : ((PawnShop.new.pledgeDevice (MobilePhone 1 1 "Acme" true true)).sellDevice 1).2.account
      = 2 := by decide
  have h2 : (PawnShop.new.pledgeDevice (MobilePhone 1 1 "Acme" true true)).account = 1 := by
    decide
  have h3 : (MobilePhone 1 1 "Acme" true true).calculateSellingPrice = ⟨11744051, -23⟩ := by
    decide
  rw [h1, h2, h3]
  norm_num [F32.toRat]

/-- C2 (amended): when the first device in insertion order with the identifier
and `sold = false` is allowed for sale, `sellDevice` returns `true`, sets the
sold flag of that device and changes nothing else in the collection.  When the
balance is an `int` and the binary32 sum of the balance and the selling price,
truncated toward zero, fits in `int`, that truncated sum is the new balance;
and the balance grows by exactly the selling price whenever that price is a
whole number `v` and the balance before and after is below `2^24` in
magnitude. -/
theorem C2_sell_of_eligible_device (s : PawnShop) (imei : Int) (i : Nat)
    (d : ElectronicDevice) (hfirst : IsFirstUnsold s.electronicDevices imei i d)
    (hallowed : d.allowedForSale = true) :
    (s.sellDevice imei).1 = true ∧
    (s.sellDevice imei).2.electronicDevices
      = s.electronicDevices.set i { d with sold := true } ∧
    (INT_MIN ≤ s.account → s.account ≤ INT_MAX →
      INT_MIN ≤ (F32.add (F32.ofInt s.account) d.calculateSellingPrice).trunc →
      (F32.add (F32.ofInt s.account) d.calculateSellingPrice).trunc ≤ INT_MAX →
      (s.sellDevice imei).2.account
        = (F32.add (F32.ofInt s.account) d.calculateSellingPrice).trunc) ∧
    (∀ v : Int, d.calculateSellingPrice.toRat = v → s.account.natAbs < 2 ^ 24 →
      (s.account + v).natAbs < 2 ^ 24 → (s.sellDevice imei).2.account = s.account + v) := by
  have hsell := sellDevice_of_firstUnsold s imei i d hfirst
  rw [markAsSold_of_allowed d hallowed] at hsell
  rw [hsell]
  refine ⟨rfl, rfl, ?_, ?_⟩
  · intro _ _ h₁ h₂
    exact F32.toInt_of_inRange _ h₁ h₂
  · intro v hv ha hsum
    exact addFloatToInt_of_whole s.account _ v hv ha hsum

/-- C2 (amended) at the ledger holding the freshly pledged phone
`MobilePhone(1, 100, forSale = true, 5G = true)`, whose selling price is 140:
the sale succeeds, marks the phone sold and raises the balance from 100 to
240. -/
theorem C2_sell_of_eligible_device_witness :
    IsFirstUnsold (run [Op.pledge (MobilePhone 1 100 "Acme" true true)]).electronicDevices
      1 0 (MobilePhone 1 100 "Acme" true true) ∧
    ((run [Op.pledge (MobilePhone 1 100 "Acme" true true)]).sellDevice 1).1 = true ∧
    ((run [Op.pledge (MobilePhone 1 100 "Acme" true true)]).sellDevice 1).2.electronicDevices
      = [{ MobilePhone 1 100 "Acme" true true with sold := true }] ∧
    ((run [Op.pledge (MobilePhone 1 100 "Acme" true true)]).sellDevice 1).2.account
      = 100 + 140 := by
  have h := C2_sell_of_eligible_device (run [Op.pledge (MobilePhone 1 100 "Acme" true true)])
    1 0 (MobilePhone 1 100 "Acme" true true) ⟨by decide, by decide, by decide, by decide⟩
    (by decide)
  refine ⟨⟨by decide, by decide, by decide, by decide⟩, h.1, ?_, ?_⟩
  · rw [h.2.1]
    decide
  · refine h.2.2.2 140 ?_ (by decide) (by decide)
    rw [show (MobilePhone 1 100 "Acme" true true).calculateSellingPrice
      = ⟨9175040, -16⟩ by decide]
    norm_num [F32.toRat]

/-- C3 as stated fails on two runs of freshly constructed devices.  After
pledging a phone that is not for sale (price 50) and calling `sellDevice` on
it, the balance is 115 while the pledge prices sum to 50 and no device is
sold.  After pledging a phone for sale with price 1 and selling it, the
balance is 2 while the pledge price plus the selling price of the sold phone
is `1 + 11744051 / 2^23`. -/
theorem C3_counterexample :
    ((∀ op ∈ [Op.pledge (MobilePhone 3 50 "Core" false false), Op.sell 3],
        op.isFresh = true) ∧
      ((run [Op.pledge (MobilePhone 3 50 "Core" false false), Op.sell 3]).account : ℚ)
        ≠ (pledgedTotal [Op.pledge (MobilePhone 3 50 "Core" false false), Op.sell 3] : ℚ)
          + soldTotal
              (run [Op.pledge (MobilePhone 3 50 "Core" false false),
                Op.sell 3]).electronicDevices) ∧
    ((∀ op ∈ [Op.pledge (MobilePhone 1 1 "Acme" true true), Op.sell 1],
        op.isFresh = true) ∧
      ((run [Op.pledge (MobilePhone 1 1 "Acme" true true), Op.sell 1]).account : ℚ)
        ≠ (pledgedTotal [Op.pledge (MobilePhone 1 1 "Acme" true true), Op.sell 1] : ℚ)
          + soldTotal
              (run [Op.pledge (MobilePhone 1 1 "Acme" true true),
                Op.sell 1]).electronicDevices) := by
  have r1 : run [Op.pledge (MobilePhone 3 50 "Core" false false), Op.sell 3]
      = ⟨115, [MobilePhone 3 50 "Core" false false]⟩ := by decide
  have r2 : run [Op.pledge (MobilePhone 1 1 "Acme" true true), Op.sell 1]
      = ⟨2, [{ MobilePhone 1 1 "Acme" true true with sold := true }]⟩ := by decide
  have p2 : ({ MobilePhone 1 1 "Acme" true true with sold := true } :
      ElectronicDevice).calculateSellingPrice = ⟨11744051, -23⟩ := by decide
  refine ⟨⟨by decide, ?_⟩, ⟨by decide, ?_⟩⟩
  · rw [r1]
    norm_num [pledgedTotal, soldTotal, MobilePhone, ElectronicDevice.new]
  · rw [r2]
    simp only [soldTotal_cons, if_true, p2]
    norm_num [pledgedTotal, soldTotal, MobilePhone, ElectronicDevice.new, F32.toRat]

/-- C3 (amended): in every ledger reached from the empty ledger by pledge, sell
and release calls in which the pledged devices are freshly constructed, every
pledge leaves the balance in the range of `int`, and every sale hits a device
allowed for sale whose selling price is a whole number, the balance before and
after the sale being below `2^24` in magnitude, the balance equals the
sum of the pledge prices of all devices pledged so far plus the sum of the
selling prices of the devices marked sold. -/
theorem C3_balance_invariant (ops : List Op) (h : ExactRun PawnShop.new ops) :
    ((run ops).account : ℚ)
      = (pledgedTotal ops : ℚ) + soldTotal (run ops).electronicDevices := by
  have := exact_foldl ops PawnShop.new h
  simp only [PawnShop.new, soldTotal, Int.cast_zero, sub_zero, zero_add] at this
  unfold run
  simp only [PawnShop.new]
  linarith

/-- C3 (amended) at the run of the scenario, followed by the pledge and the
release of a third device: every call credits exactly, and the balance 750 is
the pledged 100 + 200 + 50 plus the selling prices 140 + 260 of the two sold
devices. -/
theorem C3_balance_invariant_witness :
    ExactRun PawnShop.new
      [Op.pledge (MobilePhone 1 100 "Acme" true true), Op.sell 1,
       Op.pledge (Tablet 2 200 "Bolt" true false), Op.sell 2,
       Op.pledge (MobilePhone 3 50 "Core" true false), Op.release 3] ∧
    (run [Op.pledge (MobilePhone 1 100 "Acme" true true), Op.sell 1,
       Op.pledge (Tablet 2 200 "Bolt" true false), Op.sell 2,
       Op.pledge (MobilePhone 3 50 "Core" true false), Op.release 3]).account = 750 ∧
    ((run [Op.pledge (MobilePhone 1 100 "Acme" true true), Op.sell 1,
       Op.pledge (Tablet 2 200 "Bolt" true false), Op.sell 2,
       Op.pledge (MobilePhone 3 50 "Core" true false), Op.release 3]).account : ℚ)
      = (pledgedTotal [Op.pledge (MobilePhone 1 100 "Acme" true true), Op.sell 1,
           Op.pledge (Tablet 2 200 "Bolt" true false), Op.sell 2,
           Op.pledge (MobilePhone 3 50 "Core" true false), Op.release 3] : ℚ)
        + soldTotal (run [Op.pledge (MobilePhone 1 100 "Acme" true true), Op.sell 1,
            Op.pledge (Tablet 2 200 "Bolt" true false), Op.sell 2,
            Op.pledge (MobilePhone 3 50 "Core" true false),
            Op.release 3]).electronicDevices := by
  have hrun : ExactRun PawnShop.new
      [Op.pledge (MobilePhone 1 100 "Acme" true true), Op.sell 1,
       Op.pledge (Tablet 2 200 "Bolt" true false), Op.sell 2,
       Op.pledge (MobilePhone 3 50 "Core" true false), Op.release 3] := by
    refine ⟨⟨rfl, by decide, by decide⟩, ?_, ⟨rfl, by decide, by decide⟩, ?_,
      ⟨rfl, by decide, by decide⟩, trivial, trivial⟩
    · refine exact_sell_of _ 1 (MobilePhone 1 100 "Acme" true true) 140 (by decide) (by decide)
        (by decide) ?_ (by decide)
      rw [show (MobilePhone 1 100 "Acme" true true).calculateSellingPrice
        = ⟨9175040, -16⟩ by decide]
      norm_num [F32.toRat]
    · refine exact_sell_of _ 2 (Tablet 2 200 "Bolt" true false) 260 (by decide) (by decide)
        (by decide) ?_ (by decide)
      rw [show (Tablet 2 200 "Bolt" true false).calculateSellingPrice
        = ⟨8519680, -15⟩ by decide]
      norm_num [F32.toRat]
  exact ⟨hrun, by decide, C3_balance_invariant _ hrun⟩

/-- C4: `sellDevice` returns `false` exactly when no device has the identifier
together with `sold = false`, and whenever it returns `false` the ledger (the
balance and the whole collection) is unchanged. -/
theorem C4_sell_fails_iff_no_unsold_match (s : PawnShop) (imei : Int) :
    ((s.sellDevice imei).1 = false ↔
      ¬ ∃ d ∈ s.electronicDevices, d.imei = imei ∧ d.sold = false) ∧
    ((s.sellDevice imei).1 = false → (s.sellDevice imei).2 = s) := by
  by_cases hex : ∃ d ∈ s.electronicDevices, d.imei = imei ∧ d.sold = false
  · obtain ⟨i, d, hfirst⟩ := firstUnsold_of_exists _ _ hex
    rw [sellDevice_of_firstUnsold s imei i d hfirst]
    simp [hex]
  · have hno : ∀ d ∈ s.electronicDevices, ¬ (d.imei = imei ∧ d.sold = false) :=
      fun d hd hp => hex ⟨d, hd, hp⟩
    rw [sellDevice_of_not_found s imei hno]
    simp [hex]

/-- C5 as stated fails on two ledgers.  With two unsold phones allowed for sale
under the same identifier 7, the first `sellDevice 7` succeeds and the second
succeeds as well, on the second phone.  With one phone that is not for sale
under identifier 3, `sellDevice 3` succeeds and succeeds again. -/
theorem C5_counterexample :
    (((⟨0, [MobilePhone 7 100 "Acme" true true, MobilePhone 7 100 "Acme" true true]⟩ :
        PawnShop).sellDevice 7).1 = true ∧
      (((⟨0, [MobilePhone 7 100 "Acme" true true, MobilePhone 7 100 "Acme" true true]⟩ :
        PawnShop).sellDevice 7).2.sellDevice 7).1 = true) ∧
    (((⟨0, [MobilePhone 3 50 "Core" false false]⟩ : PawnShop).sellDevice 3).1 = true ∧
      (((⟨0, [MobilePhone 3 50 "Core" false false]⟩ : PawnShop).sellDevice 3).2.sellDevice
        3).1 = true) := by
  refine ⟨⟨by decide, by decide⟩, ⟨by decide, by decide⟩⟩

/-- C5 (amended): when the first unsold device with the identifier is allowed
for sale and no other unsold device with that identifier is held,
`sellDevice` succeeds and an immediate second `sellDevice` with the same
identifier returns `false` and changes nothing. -/
theorem C5_second_sell_fails (s : PawnShop) (imei : Int) (i : Nat) (d : ElectronicDevice)
    (hfirst : IsFirstUnsold s.electronicDevices imei i d)
    (hallowed : d.allowedForSale = true)
    (honly : ∀ e ∈ s.electronicDevices.drop (i + 1), ¬ (e.imei = imei ∧ e.sold = false)) :
    (s.sellDevice imei).1 = true ∧
    (s.sellDevice imei).2.sellDevice imei = (false, (s.sellDevice imei).2) := by
  have hsell := sellDevice_of_firstUnsold s imei i d hfirst
  rw [markAsSold_of_allowed d hallowed] at hsell
  rw [hsell]
  refine ⟨rfl, ?_⟩
  apply sellDevice_of_not_found
  exact no_unsold_after_set s.electronicDevices imei i d _ hfirst rfl honly

/-- C5 (amended) at the scenario ledger with one more phone pledged under the
identifier 1 of a device already sold: the first `sellDevice 1` sells the new
phone, the second one fails. -/
theorem C5_second_sell_fails_witness :
    IsFirstUnsold (scenarioLedger.pledgeDevice (MobilePhone 1 80 "Dune" true false)).electronicDevices
      1 3 (MobilePhone 1 80 "Dune" true false) ∧
    ((scenarioLedger.pledgeDevice (MobilePhone 1 80 "Dune" true false)).sellDevice 1).1 = true ∧
    ((scenarioLedger.pledgeDevice (MobilePhone 1 80 "Dune" true false)).sellDevice 1).2.sellDevice 1
      = (false, ((scenarioLedger.pledgeDevice (MobilePhone 1 80 "Dune" true false)).sellDevice
          1).2) :=
  ⟨⟨by decide, by decide, by decide, by decide⟩,
    C5_second_sell_fails (scenarioLedger.pledgeDevice (MobilePhone 1 80 "Dune" true false)) 1 3
      (MobilePhone 1 80 "Dune" true false) ⟨by decide, by decide, by decide, by decide⟩
      (by decide) (by decide)⟩

/-- C6: `releaseDevice` leaves the collection with exactly the devices that
have the identifier and `sold = false` filtered out (all of them), the others
unchanged and in their original order, and returns `true` exactly when some
device was removed, that is when such a device was held. -/
theorem C6_release_removes_all_unsold_matches (s : PawnShop) (imei : Int) :
    (s.releaseDevice imei).2.electronicDevices
      = s.electronicDevices.filter (fun d => decide ¬ (d.imei = imei ∧ d.sold = false)) ∧
    ((s.releaseDevice imei).1 = true ↔
      (s.releaseDevice imei).2.electronicDevices.length < s.electronicDevices.length) ∧
    ((s.releaseDevice imei).1 = true ↔
      ∃ d ∈ s.electronicDevices, d.imei = imei ∧ d.sold = false) := by
  refine ⟨?_, ?_, releaseDevice_flag s imei⟩
  · rw [releaseDevice_devices]
    apply List.filter_congr
    intro d _
    by_cases hi : d.imei = imei <;> cases hs : d.sold <;> simp [unsoldWithImei, hi, hs]
  · rw [releaseDevice_flag, releaseDevice_devices]
    constructor
    · rintro ⟨d, hd, hp⟩
      apply lt_of_le_of_ne (List.length_filter_le _ _)
      intro hlen
      rw [← remove_if_eq_filter, remove_if_length_eq_iff] at hlen
      have := hlen d hd
      rw [(unsoldWithImei_iff imei d).2 hp] at this
      cases this
    · intro hlt
      by_contra hno
      have hall : ∀ d ∈ s.electronicDevices, (!unsoldWithImei imei d) = true := by
        intro d hd
        cases hp : unsoldWithImei imei d
        · rfl
        · exact absurd ⟨d, hd, (unsoldWithImei_iff imei d).1 hp⟩ hno
      rw [List.filter_eq_self.2 hall] at hlt
      exact lt_irrefl _ hlt

/-- C7: when every device with the identifier is marked sold, `releaseDevice`
returns `false` and the ledger, collection and balance, is unchanged. -/
theorem C7_release_of_sold_fails (s : PawnShop) (imei : Int)
    (h : ∀ d ∈ s.electronicDevices, d.imei = imei → d.sold = true) :
    s.releaseDevice imei = (false, s) := by
  apply releaseDevice_of_none
  rintro d hd ⟨hi, hs⟩
  rw [h d hd hi] at hs
  cases hs

/-- C7 at the scenario ledger: the devices 1 and 2 are sold, and releasing
either of them is refused and changes nothing. -/
theorem C7_release_of_sold_fails_witness :
    (∀ d ∈ scenarioLedger.electronicDevices, d.imei = 1 → d.sold = true) ∧
    scenarioLedger.electronicDevices.length = 3 ∧
    scenarioLedger.releaseDevice 1 = (false, scenarioLedger) :=
  ⟨by decide, by decide, C7_release_of_sold_fails scenarioLedger 1 (by decide)⟩

/-- C8: `releaseDevice` never changes the balance, whether or not it removes a
device. -/
theorem C8_release_keeps_balance (s : PawnShop) (imei : Int) :
    (s.releaseDevice imei).2.account = s.account :=
  releaseDevice_account s imei

/-- C9: in every ledger reached from the empty ledger by pledge, sell and
release calls, the pledged devices being freshly constructed (`sold = false`),
every device whose sold flag is true is allowed for sale. -/
theorem C9_sold_devices_are_allowed_for_sale (ops : List Op)
    (hfresh : ∀ op ∈ ops, op.isFresh = true) :
    ∀ d ∈ (run ops).electronicDevices, d.sold = true → d.allowedForSale = true :=
  soldAllowed_foldl ops PawnShop.new hfresh (by intro d hd; cases hd)

/-- C9 at a run that sells two devices, tries to sell one that is not for sale
and releases it: the two sold devices are held and both are allowed for sale. -/
theorem C9_sold_devices_are_allowed_for_sale_witness :
    (∀ op ∈ [Op.pledge (MobilePhone 1 100 "Acme" true true), Op.sell 1,
        Op.pledge (Tablet 2 200 "Bolt" true false), Op.sell 2,
        Op.pledge (MobilePhone 3 50 "Core" false false), Op.sell 3, Op.release 3],
      op.isFresh = true) ∧
    ((run [Op.pledge (MobilePhone 1 100 "Acme" true true), Op.sell 1,
        Op.pledge (Tablet 2 200 "Bolt" true false), Op.sell 2,
        Op.pledge (MobilePhone 3 50 "Core" false false), Op.sell 3,
        Op.release 3]).electronicDevices.filter (fun d => d.sold)).length = 2 ∧
    ∀ d ∈ (run [Op.pledge (MobilePhone 1 100 "Acme" true true), Op.sell 1,
        Op.pledge (Tablet 2 200 "Bolt" true false), Op.sell 2,
        Op.pledge (MobilePhone 3 50 "Core" false false), Op.sell 3,
        Op.release 3]).electronicDevices, d.sold = true → d.allowedForSale = true :=
  ⟨by decide, by decide, C9_sold_devices_are_allowed_for_sale _ (by decide)⟩

/-- C10: sold is terminal.  For every ledger and every single call (pledge,
sell, release) the devices marked sold before the call are, in the same order
and with the same multiplicity, among the devices marked sold after it, so each
of them is still held and still marked sold; and `markAsSold` leaves a device
that is already sold as it is. -/
theorem C10_sold_is_terminal (s : PawnShop) (op : Op) :
    List.Sublist (s.electronicDevices.filter (fun e => e.sold))
      ((op.apply s).electronicDevices.filter (fun e => e.sold)) ∧
    (∀ d ∈ s.electronicDevices, d.sold = true →
      d ∈ (op.apply s).electronicDevices) ∧
    (∀ d : ElectronicDevice, d.sold = true → d.markAsSold = d) := by
  refine ⟨sold_sublist_apply s op, ?_, markAsSold_of_sold⟩
  intro d hd hs
  have hmem : d ∈ s.electronicDevices.filter (fun e => e.sold) :=
    List.mem_filter.2 ⟨hd, hs⟩
  exact List.mem_of_mem_filter ((sold_sublist_apply s op).subset hmem)

/-! ## Claims on single calls -/

theorem markAsSold_fields (d : ElectronicDevice) :
    d.markAsSold.imei = d.imei ∧ d.markAsSold.priceOfPledge = d.priceOfPledge ∧
    d.markAsSold.manufacturer = d.manufacturer ∧
    d.markAsSold.allowedForSale = d.allowedForSale ∧ d.markAsSold.cls = d.cls := by
  unfold ElectronicDevice.markAsSold
  split <;> exact ⟨rfl, rfl, rfl, rfl, rfl⟩

/-- C11: `markAsSold` changes no field other than `sold`; the new sold flag is
`true` when the device is allowed for sale and the old flag otherwise.  So a
device that is not allowed for sale is left exactly as it is, and a device
allowed for sale becomes the same device with `sold = true`. -/
theorem C11_markAsSold_effect (d : ElectronicDevice) :
    d.markAsSold.imei = d.imei ∧ d.markAsSold.priceOfPledge = d.priceOfPledge ∧
    d.markAsSold.manufacturer = d.manufacturer ∧
    d.markAsSold.allowedForSale = d.allowedForSale ∧ d.markAsSold.cls = d.cls ∧
    d.markAsSold.sold = (d.allowedForSale || d.sold) ∧
    (d.allowedForSale = false → d.markAsSold = d) ∧
    (d.allowedForSale = true → d.markAsSold = { d with sold := true }) := by
  obtain ⟨h1, h2, h3, h4, h5⟩ := markAsSold_fields d
  refine ⟨h1, h2, h3, h4, h5, ?_, markAsSold_of_not_allowed d, markAsSold_of_allowed d⟩
  cases ha : d.allowedForSale
  · rw [markAsSold_of_not_allowed d ha]
    simp
  · rw [markAsSold_of_allowed d ha]
    simp

theorem calculateSellingPrice_eq (d : ElectronicDevice) :
    d.calculateSellingPrice =
      match d.cls with
      | DeviceClass.ElectronicDevice => F32.ofInt d.priceOfPledge
      | DeviceClass.MobilePhone true => F32.mul (F32.ofInt d.priceOfPledge) ⟨11744051, -23⟩
      | DeviceClass.MobilePhone false => F32.mul (F32.ofInt d.priceOfPledge) ⟨10905190, -23⟩
      | DeviceClass.Tablet _ => F32.mul (F32.ofInt d.priceOfPledge) ⟨10905190, -23⟩ := by
  unfold ElectronicDevice.calculateSellingPrice
  rcases hc : d.cls with _ | g | c
  · rfl
  · cases g
    · simp only [Bool.false_eq_true, if_false, F32.markup_values.2]
      rfl
    · simp only [if_true, F32.markup_values.1]
  · rfl

/-- C12: from the empty ledger, pledging a phone allowed for sale with
identifier 1, price 100 and 5G gives balance 100; `sellDevice 1` then succeeds
and gives balance 240; pledging a tablet allowed for sale with identifier 2,
price 200 and no phone calls gives balance 440; `sellDevice 2` then succeeds
and gives balance 700.  The manufacturers are arbitrary. -/
theorem C12_scenario_balances (m₁ m₂ : String) :
    (run [Op.pledge (MobilePhone 1 100 m₁ true true)]).account = 100 ∧
    ((run [Op.pledge (MobilePhone 1 100 m₁ true true)]).sellDevice 1).1 = true ∧
    (run [Op.pledge (MobilePhone 1 100 m₁ true true), Op.sell 1]).account = 240 ∧
    (run [Op.pledge (MobilePhone 1 100 m₁ true true), Op.sell 1,
      Op.pledge (Tablet 2 200 m₂ true false)]).account = 440 ∧
    ((run [Op.pledge (MobilePhone 1 100 m₁ true true), Op.sell 1,
      Op.pledge (Tablet 2 200 m₂ true false)]).sellDevice 2).1 = true ∧
    (run [Op.pledge (MobilePhone 1 100 m₁ true true), Op.sell 1,
      Op.pledge (Tablet 2 200 m₂ true false), Op.sell 2]).account = 700 := by
  have hp₁ : (MobilePhone 1 100 m₁ true true).calculateSellingPrice = ⟨9175040, -16⟩ := by
    rw [calculateSellingPrice_eq]
    show F32.mul (F32.ofInt 100) ⟨11744051, -23⟩ = _
    decide
  have hp₂ : (Tablet 2 200 m₂ true false).calculateSellingPrice = ⟨8519680, -15⟩ := by
    rw [calculateSellingPrice_eq]
    show F32.mul (F32.ofInt 200) ⟨10905190, -23⟩ = _
    decide
  have ha₁ : addFloatToInt 100 ⟨9175040, -16⟩ = 240 := by decide
  have ha₂ : addFloatToInt 440 ⟨8519680, -15⟩ = 700 := by decide
  have e₁ : run [Op.pledge (MobilePhone 1 100 m₁ true true)]
      = ⟨100, [MobilePhone 1 100 m₁ true true]⟩ := rfl
  have s₁ : (⟨100, [MobilePhone 1 100 m₁ true true]⟩ : PawnShop).sellDevice 1
      = (true, ⟨240, [(MobilePhone 1 100 m₁ true true).markAsSold]⟩) := by
    rw [sellDevice_of_firstUnsold ⟨100, [MobilePhone 1 100 m₁ true true]⟩ 1 0
      (MobilePhone 1 100 m₁ true true) ⟨rfl, rfl, rfl, by simp⟩, hp₁, ha₁]
    rfl
  have e₂ : run [Op.pledge (MobilePhone 1 100 m₁ true true), Op.sell 1]
      = ⟨240, [(MobilePhone 1 100 m₁ true true).markAsSold]⟩ := by
    show ((run [Op.pledge (MobilePhone 1 100 m₁ true true)]).sellDevice 1).2 = _
    rw [e₁, s₁]
  have e₃ : run [Op.pledge (MobilePhone 1 100 m₁ true true), Op.sell 1,
      Op.pledge (Tablet 2 200 m₂ true false)]
      = ⟨440, [(MobilePhone 1 100 m₁ true true).markAsSold, Tablet 2 200 m₂ true false]⟩ := by
    show (run [Op.pledge (MobilePhone 1 100 m₁ true true), Op.sell 1]).pledgeDevice _ = _
    rw [e₂]
    rfl
  have s₃ : (⟨440, [(MobilePhone 1 100 m₁ true true).markAsSold,
      Tablet 2 200 m₂ true false]⟩ : PawnShop).sellDevice 2
      = (true, ⟨700, [(MobilePhone 1 100 m₁ true true).markAsSold,
          (Tablet 2 200 m₂ true false).markAsSold]⟩) := by
    rw [sellDevice_of_firstUnsold ⟨440, [(MobilePhone 1 100 m₁ true true).markAsSold,
      Tablet 2 200 m₂ true false]⟩ 2 1 (Tablet 2 200 m₂ true false)
      ⟨rfl, rfl, rfl, by simp [ElectronicDevice.markAsSold, MobilePhone,
        ElectronicDevice.new]⟩, hp₂, ha₂]
    rfl
  have e₄ : run [Op.pledge (MobilePhone 1 100 m₁ true true), Op.sell 1,
      Op.pledge (Tablet 2 200 m₂ true false), Op.sell 2]
      = ⟨700, [(MobilePhone 1 100 m₁ true true).markAsSold,
          (Tablet 2 200 m₂ true false).markAsSold]⟩ := by
    show ((run [Op.pledge (MobilePhone 1 100 m₁ true true), Op.sell 1,
      Op.pledge (Tablet 2 200 m₂ true false)]).sellDevice 2).2 = _
    rw [e₃, s₃]
  refine ⟨by rw [e₁], by rw [e₁, s₁], by rw [e₂], by rw [e₃], by rw [e₃, s₃], by rw [e₄]⟩

/-- C14 as stated fails: on the ledger reached by pledging a phone for
2000000000, pledging a tablet for 2000000000 does not raise the balance by the
pledge price; the sum 4000000000 is not an `int` and the balance becomes
-294967296. -/
theorem C14_counterexample :
    (run [Op.pledge (MobilePhone 1 2000000000 "Acme" true true)]).account = 2000000000 ∧
    ((run [Op.pledge (MobilePhone 1 2000000000 "Acme" true true)]).pledgeDevice
      (Tablet 2 2000000000 "Bolt" true false)).account = -294967296 ∧
    ((run [Op.pledge (MobilePhone 1 2000000000 "Acme" true true)]).pledgeDevice
      (Tablet 2 2000000000 "Bolt" true false)).account
      ≠ (run [Op.pledge (MobilePhone 1 2000000000 "Acme" true true)]).account
        + (Tablet 2 2000000000 "Bolt" true false).priceOfPledge := by
  refine ⟨by decide, by decide, by decide⟩

/-- C14 (amended): `pledgeDevice` puts the device at the end of the collection
and leaves every device held before at its index; it has no precondition, so
it does the same when a device with the same identifier is already held; and
it raises the balance by exactly the pledge price of the device whenever the
balance with the pledge price added is in the range of `int`. -/
theorem C14_pledge_appends (s : PawnShop) (device : ElectronicDevice) :
    (s.pledgeDevice device).electronicDevices = s.electronicDevices ++ [device] ∧
    (s.pledgeDevice device).electronicDevices.length = s.electronicDevices.length + 1 ∧
    (∀ j, j < s.electronicDevices.length →
      (s.pledgeDevice device).electronicDevices[j]? = s.electronicDevices[j]?) ∧
    (s.pledgeDevice device).electronicDevices[s.electronicDevices.length]? = some device ∧
    (INT_MIN ≤ s.account + device.priceOfPledge → s.account + device.priceOfPledge ≤ INT_MAX →
      (s.pledgeDevice device).account = s.account + device.priceOfPledge) := by
  refine ⟨rfl, by simp [PawnShop.pledgeDevice], ?_, by simp [PawnShop.pledgeDevice], ?_⟩
  · intro j hj
    simp only [PawnShop.pledgeDevice]
    exact List.getElem?_append_left hj
  · intro h₁ h₂
    exact wrapInt_of_inRange _ h₁ h₂

/-- C14 (amended) at the scenario ledger, which already holds a sold device
with identifier 1: pledging another phone with identifier 1 for 80 puts it at
index 3 and raises the balance from 750 to 830. -/
theorem C14_pledge_appends_witness :
    scenarioLedger.electronicDevices.length = 3 ∧
    (∃ d ∈ scenarioLedger.electronicDevices, d.imei = 1) ∧
    (scenarioLedger.pledgeDevice (MobilePhone 1 80 "Dune" true false)).electronicDevices[3]?
      = some (MobilePhone 1 80 "Dune" true false) ∧
    (scenarioLedger.pledgeDevice (MobilePhone 1 80 "Dune" true false)).account = 750 + 80 := by
  have h := C14_pledge_appends scenarioLedger (MobilePhone 1 80 "Dune" true false)
  exact ⟨by decide, by decide, h.2.2.2.1, h.2.2.2.2 (by decide) (by decide)⟩

/-- C19: `releaseDevice` is idempotent: a second call with the same identifier
right after a first one returns `false` and leaves the ledger as the first call
left it. -/
theorem C19_release_idempotent (s : PawnShop) (imei : Int) :
    (s.releaseDevice imei).2.releaseDevice imei = (false, (s.releaseDevice imei).2) := by
  apply releaseDevice_of_none
  intro d hd hp
  rw [releaseDevice_devices] at hd
  have := (List.mem_filter.1 hd).2
  rw [(unsoldWithImei_iff imei d).2 hp] at this
  cases this

/-- C20: `sellDevice` keeps the length and the order of the collection; the
device at each index keeps its identifier, pledge price, manufacturer,
eligibility and class with its flag; a device whose sold flag changes is the
first device in insertion order with the identifier and `sold = false`; and a
device with another identifier is left unchanged. -/
theorem C20_sell_frame (s : PawnShop) (imei : Int) :
    (s.sellDevice imei).2.electronicDevices.length = s.electronicDevices.length ∧
    ∀ j d e, s.electronicDevices[j]? = some d →
      (s.sellDevice imei).2.electronicDevices[j]? = some e →
      (e.imei = d.imei ∧ e.priceOfPledge = d.priceOfPledge ∧
        e.manufacturer = d.manufacturer ∧ e.allowedForSale = d.allowedForSale ∧
        e.cls = d.cls) ∧
      (e.sold ≠ d.sold → IsFirstUnsold s.electronicDevices imei j d) ∧
      (d.imei ≠ imei → e = d) := by
  by_cases hex : ∃ d ∈ s.electronicDevices, d.imei = imei ∧ d.sold = false
  · obtain ⟨i, d₀, hfirst⟩ := firstUnsold_of_exists _ _ hex
    rw [sellDevice_of_firstUnsold s imei i d₀ hfirst]
    refine ⟨by simp, ?_⟩
    intro j d e hd he
    simp only at he
    by_cases hji : i = j
    · subst hji
      have hd₀ : d = d₀ := by
        have := hfirst.1
        rw [hd] at this
        exact Option.some.inj this
      subst hd₀
      rw [List.getElem?_set_self (firstUnsold_lt hfirst)] at he
      have hed : e = d.markAsSold := (Option.some.inj he).symm
      subst hed
      refine ⟨markAsSold_fields d, fun _ => hfirst, fun hne => absurd hfirst.2.1 hne⟩
    · rw [List.getElem?_set_ne hji, hd] at he
      have hed : e = d := (Option.some.inj he).symm
      subst hed
      exact ⟨⟨rfl, rfl, rfl, rfl, rfl⟩, fun h => absurd rfl h, fun _ => rfl⟩
  · have hno : ∀ d ∈ s.electronicDevices, ¬ (d.imei = imei ∧ d.sold = false) :=
      fun d hd hp => hex ⟨d, hd, hp⟩
    rw [sellDevice_of_not_found s imei hno]
    refine ⟨rfl, ?_⟩
    intro j d e hd he
    simp only at he
    rw [hd] at he
    have hed : e = d := (Option.some.inj he).symm
    subst hed
    exact ⟨⟨rfl, rfl, rfl, rfl, rfl⟩, fun h => absurd rfl h, fun _ => rfl⟩

/-! ## Claims on the listings -/

theorem listedDevices_cons (wantSold : Bool) (a : ElectronicDevice)
    (as : List ElectronicDevice) :
    listedDevices wantSold (a :: as)
      = if a.sold = wantSold then a :: listedDevices wantSold as
        else listedDevices wantSold as := by
  by_cases h : a.sold = wantSold
  · simp [listedDevices, List.filter_cons, h]
  · simp [listedDevices, List.filter_cons, h]

theorem showDevices_eq (wantSold : Bool) (l : List ElectronicDevice) :
    showDevices wantSold l = describeAll (listedDevices wantSold l) := by
  induction l with
  | nil => rfl
  | cons a as ih =>
    rw [listedDevices_cons]
    by_cases h : a.sold = wantSold
    · simp only [showDevices, h, if_true, describeAll, ih]
    · simp only [showDevices, h, if_false, ih]

theorem mem_listedDevices (wantSold : Bool) (l : List ElectronicDevice) (d : ElectronicDevice) :
    d ∈ listedDevices wantSold l ↔ d ∈ l ∧ d.sold = wantSold := by
  simp [listedDevices, List.mem_filter]

theorem intercalate_go_newline (acc : String) (l : List ElectronicDevice) :
    String.intercalate.go acc "\n" (l.map ElectronicDevice.getDeviceInfo) ++ "\n"
      = acc ++ "\n" ++ describeAll l := by
  induction l generalizing acc with
  | nil => simp [String.intercalate.go, describeAll]
  | cons a as ih =>
    simp only [List.map_cons, String.intercalate.go, describeAll]
    rw [ih]
    simp only [String.append_assoc]

theorem describeAll_eq_intercalate (l : List ElectronicDevice) (h : l ≠ []) :
    describeAll l
      = String.intercalate "\n" (l.map ElectronicDevice.getDeviceInfo) ++ "\n" := by
  cases l with
  | nil => exact absurd rfl h
  | cons a as =>
    simp only [List.map_cons, String.intercalate, describeAll]
    rw [intercalate_go_newline]

/-- C13: when at least one unsold device with the identifier is held, allowed
for sale or not, `releaseDevice` returns `true`, and afterwards
`showAvailableDevices` is the text describing the unsold devices still held,
none of which has that identifier. -/
theorem C13_release_of_unsold (s : PawnShop) (imei : Int)
    (h : ∃ d ∈ s.electronicDevices, d.imei = imei ∧ d.sold = false) :
    (s.releaseDevice imei).1 = true ∧
    (s.releaseDevice imei).2.showAvailableDevices
      = describeAll (listedDevices false (s.releaseDevice imei).2.electronicDevices) ∧
    ∀ d ∈ listedDevices false (s.releaseDevice imei).2.electronicDevices, d.imei ≠ imei := by
  refine ⟨(releaseDevice_flag s imei).2 h, showDevices_eq false _, ?_⟩
  intro d hd hi
  rw [mem_listedDevices, releaseDevice_devices] at hd
  have := (List.mem_filter.1 hd.1).2
  rw [(unsoldWithImei_iff imei d).2 ⟨hi, hd.2⟩] at this
  cases this

/-- C13 at the scenario ledger, where device 3 is unsold and not for sale:
releasing it succeeds and leaves no unsold device to list. -/
theorem C13_release_of_unsold_witness :
    (∃ d ∈ scenarioLedger.electronicDevices,
      d.imei = 3 ∧ d.sold = false ∧ d.allowedForSale = false) ∧
    (scenarioLedger.releaseDevice 3).1 = true ∧
    (scenarioLedger.releaseDevice 3).2.showAvailableDevices = "" ∧
    ∀ d ∈ listedDevices false (scenarioLedger.releaseDevice 3).2.electronicDevices,
      d.imei ≠ 3 := by
  have h := C13_release_of_unsold scenarioLedger 3 (by decide)
  exact ⟨by decide, h.1, by decide, h.2.2⟩

/-- C15: the two listings partition the collection.  `showAvailableDevices`
describes the unsold devices and `showSoldDevices` the sold ones; together
these are the devices held, each with its multiplicity, every device held is
in exactly one of the two, and the identifiers occurring in the two listings
are the identifiers of the devices held. -/
theorem C15_listings_partition (s : PawnShop) :
    s.showAvailableDevices = describeAll (listedDevices false s.electronicDevices) ∧
    s.showSoldDevices = describeAll (listedDevices true s.electronicDevices) ∧
    List.Perm (listedDevices false s.electronicDevices ++ listedDevices true s.electronicDevices)
      s.electronicDevices ∧
    (∀ d ∈ s.electronicDevices,
      (d ∈ listedDevices false s.electronicDevices ∧
          d ∉ listedDevices true s.electronicDevices) ∨
        (d ∉ listedDevices false s.electronicDevices ∧
          d ∈ listedDevices true s.electronicDevices)) ∧
    (∀ d, d ∈ listedDevices false s.electronicDevices ∨
        d ∈ listedDevices true s.electronicDevices → d ∈ s.electronicDevices) ∧
    (∀ i : Int,
      (∃ d, (d ∈ listedDevices false s.electronicDevices ∨
          d ∈ listedDevices true s.electronicDevices) ∧ d.imei = i)
        ↔ ∃ d ∈ s.electronicDevices, d.imei = i) := by
  refine ⟨showDevices_eq false _, showDevices_eq true _, ?_, ?_, ?_, ?_⟩
  · have hperm := List.filter_append_perm (fun d : ElectronicDevice => d.sold == false)
      s.electronicDevices
    have hcongr : s.electronicDevices.filter (fun d => !(d.sold == false))
        = s.electronicDevices.filter (fun d => d.sold == true) := by
      apply List.filter_congr
      intro d _
      cases d.sold <;> rfl
    rw [hcongr] at hperm
    exact hperm
  · intro d hd
    simp only [mem_listedDevices]
    cases hs : d.sold
    · left
      exact ⟨⟨hd, rfl⟩, fun h => (by cases h.2)⟩
    · right
      exact ⟨fun h => (by cases h.2), ⟨hd, rfl⟩⟩
  · intro d hd
    simp only [mem_listedDevices] at hd
    rcases hd with hd | hd <;> exact hd.1
  · intro i
    simp only [mem_listedDevices]
    constructor
    · rintro ⟨d, hd | hd, hi⟩
      · exact ⟨d, hd.1, hi⟩
      · exact ⟨d, hd.1, hi⟩
    · rintro ⟨d, hd, hi⟩
      cases hs : d.sold
      · exact ⟨d, Or.inl ⟨hd, hs⟩, hi⟩
      · exact ⟨d, Or.inr ⟨hd, hs⟩, hi⟩

/-- C17 as stated fails: on the ledger holding one unsold phone,
`showAvailableDevices` is not the newline-joined list of descriptions, since it
ends with a newline character after the only entry. -/
theorem C17_counterexample :
    (⟨0, [MobilePhone 1 100 "Acme" true true]⟩ : PawnShop).showAvailableDevices
      ≠ String.intercalate "\n"
          ((listedDevices false [MobilePhone 1 100 "Acme" true true]).map
            ElectronicDevice.getDeviceInfo) := by
  decide

/-- C17 (amended): `showAvailableDevices` is the text of the descriptions of
exactly the devices with `sold = false`, in insertion order, each description
followed by a newline character, and `showSoldDevices` is the same for the
devices with `sold = true`; a listing that is not empty is the newline-joined
descriptions followed by one more newline, and an empty one is the empty
text.  Both are functions of the ledger and change nothing. -/
theorem C17_listings_text (s : PawnShop) :
    s.showAvailableDevices
      = describeAll (s.electronicDevices.filter (fun d => d.sold == false)) ∧
    s.showSoldDevices
      = describeAll (s.electronicDevices.filter (fun d => d.sold == true)) ∧
    (∀ l : List ElectronicDevice, l ≠ [] →
      describeAll l = String.intercalate "\n" (l.map ElectronicDevice.getDeviceInfo) ++ "\n") ∧
    describeAll [] = "" :=
  ⟨showDevices_eq false _, showDevices_eq true _, describeAll_eq_intercalate, rfl⟩

/-! ## Repeated sales of a device that is not for sale -/

theorem set_of_getElem? {α : Type} (l : List α) (i : Nat) (x : α) (h : l[i]? = some x) :
    l.set i x = l := by
  induction l generalizing i with
  | nil => rfl
  | cons a as ih =>
    cases i with
    | zero =>
      simp only [List.getElem?_cons_zero, Option.some.injEq] at h
      subst h
      rfl
    | succ j =>
      have hj : as[j]? = some x := by simpa using h
      simp only [List.set_cons_succ, ih j hj]

theorem sellDevice_of_not_allowed (s : PawnShop) (imei : Int) (i : Nat) (d : ElectronicDevice)
    (hfirst : IsFirstUnsold s.electronicDevices imei i d) (hnot : d.allowedForSale = false) :
    s.sellDevice imei
      = (true, { s with account := addFloatToInt s.account d.calculateSellingPrice }) := by
  rw [sellDevice_of_firstUnsold s imei i d hfirst, markAsSold_of_not_allowed d hnot,
    set_of_getElem? _ i d hfirst.1]

theorem sellTimes_of_not_allowed (imei : Int) (i : Nat) (d : ElectronicDevice) (n : Nat)
    (s : PawnShop) (hfirst : IsFirstUnsold s.electronicDevices imei i d)
    (hnot : d.allowedForSale = false) :
    sellTimes imei n s
      = { s with account :=
            Nat.iterate (fun a => addFloatToInt a d.calculateSellingPrice) n s.account } := by
  induction n generalizing s with
  | zero => rfl
  | succ k ih =>
    simp only [sellTimes, sellDevice_of_not_allowed s imei i d hfirst hnot]
    rw [ih ⟨addFloatToInt s.account d.calculateSellingPrice, s.electronicDevices⟩ hfirst]
    rfl

theorem between_bound (a v w : Int) (hvw : (0 ≤ v ∧ 0 ≤ w) ∨ (v ≤ 0 ∧ w ≤ 0))
    (ha : a.natAbs < 2 ^ 24) (hs : (a + v + w).natAbs < 2 ^ 24) :
    (a + v).natAbs < 2 ^ 24 := by
  omega

theorem sellTimes_exact (imei : Int) (i : Nat) (d : ElectronicDevice) (v : Int)
    (hv : d.calculateSellingPrice.toRat = v) (hnot : d.allowedForSale = false) (n : Nat)
    (s : PawnShop) (hfirst : IsFirstUnsold s.electronicDevices imei i d)
    (ha : s.account.natAbs < 2 ^ 24) (hs : (s.account + (n : Int) * v).natAbs < 2 ^ 24) :
    (sellTimes imei n s).account = s.account + (n : Int) * v := by
  induction n generalizing s with
  | zero => simp [sellTimes]
  | succ k ih =>
    have hsum : s.account + ((k + 1 : Nat) : Int) * v = s.account + v + (k : Int) * v := by
      push_cast
      ring
    rw [hsum] at hs ⊢
    have hvw : (0 ≤ v ∧ 0 ≤ (k : Int) * v) ∨ (v ≤ 0 ∧ (k : Int) * v ≤ 0) := by
      rcases le_total 0 v with h | h
      · exact Or.inl ⟨h, mul_nonneg (Int.ofNat_nonneg k) h⟩
      · exact Or.inr ⟨h, mul_nonpos_of_nonneg_of_nonpos (Int.ofNat_nonneg k) h⟩
    have h₁ := between_bound s.account v ((k : Int) * v) hvw ha hs
    have hstep := addFloatToInt_of_whole s.account d.calculateSellingPrice v hv ha h₁
    simp only [sellTimes, sellDevice_of_not_allowed s imei i d hfirst hnot, hstep]
    exact ih ⟨s.account + v, s.electronicDevices⟩ hfirst h₁ hs

/-- C18 as stated fails: on the ledger reached by pledging a tablet for
33554431 and a phone not for sale for 1 under identifier 3 (balance `2^25`),
the phone is the first unsold device with identifier 3 and its selling price
is `10905190 / 2^23` (about 1.3), yet `sellDevice 3` returns `true` and
leaves the balance at `2^25`: nothing is added. -/
theorem C18_counterexample :
    IsFirstUnsold
      (run [Op.pledge (Tablet 9 33554431 "Bolt" true false),
        Op.pledge (MobilePhone 3 1 "Core" false false)]).electronicDevices
      3 1 (MobilePhone 3 1 "Core" false false) ∧
    (MobilePhone 3 1 "Core" false false).allowedForSale = false ∧
    (run [Op.pledge (Tablet 9 33554431 "Bolt" true false),
      Op.pledge (MobilePhone 3 1 "Core" false false)]).account = 33554432 ∧
    ((run [Op.pledge (Tablet 9 33554431 "Bolt" true false),
      Op.pledge (MobilePhone 3 1 "Core" false false)]).sellDevice 3).1 = true ∧
    ((run [Op.pledge (Tablet 9 33554431 "Bolt" true false),
      Op.pledge (MobilePhone 3 1 "Core" false false)]).sellDevice 3).2.account = 33554432 ∧
    (((run [Op.pledge (Tablet 9 33554431 "Bolt" true false),
      Op.pledge (MobilePhone 3 1 "Core" false false)]).sellDevice 3).2.account : ℚ)
      ≠ ((run [Op.pledge (Tablet 9 33554431 "Bolt" true false),
          Op.pledge (MobilePhone 3 1 "Core" false false)]).account : ℚ)
        + (MobilePhone 3 1 "Core" false false).calculateSellingPrice.toRat := by
  have h₁ : ((run [Op.pledge (Tablet 9 33554431 "Bolt" true false),
      Op.pledge (MobilePhone 3 1 "Core" false false)]).sellDevice 3).2.account
      = 33554432 := by decide
  have h₂ : (run [Op.pledge (Tablet 9 33554431 "Bolt" true false),
      Op.pledge (MobilePhone 3 1 "Core" false false)]).account = 33554432 := by decide
  have h₃ : (MobilePhone 3 1 "Core" false false).calculateSellingPrice
      = ⟨10905190, -23⟩ := by decide
  refine ⟨⟨by decide, by decide, by decide, by decide⟩, by decide, h₂, by decide, h₁, ?_⟩
  rw [h₁, h₂, h₃]
  norm_num [F32.toRat]

/-- C18 (amended): when the first unsold device with the identifier is not
allowed for sale, each of `n` consecutive `sellDevice` calls returns `true` and
the collection with every sold flag stays exactly as it was, so an unsold
device with the same identifier placed later in the collection is still as it
was, unsold, after the `n` calls.  When the selling price of that device is a
whole number `v` and the balance before the calls and the balance plus
`n * v` are below `2^24` in magnitude, the `n` calls raise the balance by
exactly `n * v`. -/
theorem C18_repeated_sell_of_ineligible (s : PawnShop) (imei : Int) (i : Nat)
    (d : ElectronicDevice) (hfirst : IsFirstUnsold s.electronicDevices imei i d)
    (hnot : d.allowedForSale = false) (n : Nat) :
    (∀ k, k < n → ((sellTimes imei k s).sellDevice imei).1 = true) ∧
    (sellTimes imei n s).electronicDevices = s.electronicDevices ∧
    (∀ j e, i < j → s.electronicDevices[j]? = some e → e.imei = imei → e.sold = false →
      (sellTimes imei n s).electronicDevices[j]? = some e) ∧
    (∀ v : Int, d.calculateSellingPrice.toRat = v → s.account.natAbs < 2 ^ 24 →
      (s.account + (n : Int) * v).natAbs < 2 ^ 24 →
      (sellTimes imei n s).account = s.account + (n : Int) * v) := by
  refine ⟨?_, ?_, ?_, ?_⟩
  · intro k _
    rw [sellTimes_of_not_allowed imei i d k s hfirst hnot,
      sellDevice_of_not_allowed
        ⟨Nat.iterate (fun a => addFloatToInt a d.calculateSellingPrice) k s.account,
          s.electronicDevices⟩ imei i d hfirst hnot]
  · rw [sellTimes_of_not_allowed imei i d n s hfirst hnot]
  · intro j e _ he _ _
    rw [sellTimes_of_not_allowed imei i d n s hfirst hnot]
    exact he
  · intro v hv ha hs
    exact sellTimes_exact imei i d v hv hnot n s hfirst ha hs

/-- C18 (amended) at a ledger holding, under identifier 3, a phone not for sale
(price 50, selling price 65) followed by a phone for sale: three `sellDevice 3`
calls all succeed, the balance goes from 110 to `110 + 3 * 65`, and both
phones are still unsold. -/
theorem C18_repeated_sell_of_ineligible_witness :
    IsFirstUnsold [MobilePhone 3 50 "Core" false false, MobilePhone 3 60 "Dune" true false]
      3 0 (MobilePhone 3 50 "Core" false false) ∧
    (∀ k, k < 3 →
      ((sellTimes 3 k ⟨110, [MobilePhone 3 50 "Core" false false,
        MobilePhone 3 60 "Dune" true false]⟩).sellDevice 3).1 = true) ∧
    (sellTimes 3 3 ⟨110, [MobilePhone 3 50 "Core" false false,
        MobilePhone 3 60 "Dune" true false]⟩).electronicDevices
      = [MobilePhone 3 50 "Core" false false, MobilePhone 3 60 "Dune" true false] ∧
    (sellTimes 3 3 ⟨110, [MobilePhone 3 50 "Core" false false,
        MobilePhone 3 60 "Dune" true false]⟩).account = 110 + ((3 : Nat) : Int) * 65 := by
  have h := C18_repeated_sell_of_ineligible
    ⟨110, [MobilePhone 3 50 "Core" false false, MobilePhone 3 60 "Dune" true false]⟩ 3 0
    (MobilePhone 3 50 "Core" false false) ⟨by decide, by decide, by decide, by decide⟩
    (by decide) 3
  refine ⟨⟨by decide, by decide, by decide, by decide⟩, h.1, h.2.1, ?_⟩
  refine h.2.2.2 65 ?_ (by decide) (by decide)
  rw [show (MobilePhone 3 50 "Core" false false).calculateSellingPrice
    = ⟨8519680, -17⟩ by decide]
  norm_num [F32.toRat]

/-! ## The selling price -/

/-- C16 as stated fails: the selling price of a phone with pledge price 1 is
`11744051 / 2^23` with 5G and `10905190 / 2^23` without, not 1.40 and 1.30;
the selling price of a tablet with pledge price 170 is `221 - 2^-16`, not
`170 × 1.30 = 221`; and the base selling price for the pledge price
`2^24 + 1` is `2^24`. -/
theorem C16_counterexample :
    (MobilePhone 1 1 "Acme" true true).calculateSellingPrice.toRat ≠ 1 * (140 / 100) ∧
    (MobilePhone 1 1 "Acme" true false).calculateSellingPrice.toRat ≠ 1 * (130 / 100) ∧
    (Tablet 2 170 "Bolt" true false).calculateSellingPrice.toRat ≠ 170 * (130 / 100) ∧
    (ElectronicDevice.new 3 16777217 "Core" true).calculateSellingPrice.toRat ≠ 16777217 := by
  have h₁ : (MobilePhone 1 1 "Acme" true true).calculateSellingPrice = ⟨11744051, -23⟩ := by
    decide
  have h₂ : (MobilePhone 1 1 "Acme" true false).calculateSellingPrice = ⟨10905190, -23⟩ := by
    decide
  have h₃ : (Tablet 2 170 "Bolt" true false).calculateSellingPrice = ⟨14483455, -16⟩ := by
    decide
  have h₄ : (ElectronicDevice.new 3 16777217 "Core" true).calculateSellingPrice
      = ⟨8388608, 1⟩ := by decide
  rw [h₁, h₂, h₃, h₄]
  refine ⟨?_, ?_, ?_, ?_⟩ <;> norm_num [F32.toRat]

/-- C16 (amended): for every pledge price `p`, the selling price of a phone is
the binary32 product of `float(p)` and the constant `11744051 / 2^23` (the
value of `1.0f + 0.40f`) with 5G, and of `float(p)` and `10905190 / 2^23` (the
value of `1.0f + 0.30f` and of `1.30f`) without; that of a tablet is the
product of `float(p)` and `1.30f` whatever its phone-call flag; the base
selling price is `float(p)`.  These values are within `|p| / 2^22` of
`p × 1.40` and `p × 1.30`, and within `|p| / 2^24` of `p` (equal to `p` when
`|p| < 2^24`).  The result depends only on the class, `p` and the 5G flag. -/
theorem C16_selling_price (d : ElectronicDevice) :
    (d.cls = DeviceClass.MobilePhone true →
      d.calculateSellingPrice = F32.mul (F32.ofInt d.priceOfPledge) ⟨11744051, -23⟩ ∧
      |d.calculateSellingPrice.toRat - (d.priceOfPledge : ℚ) * (140 / 100)|
        ≤ |(d.priceOfPledge : ℚ)| / 2 ^ 22) ∧
    (d.cls = DeviceClass.MobilePhone false →
      d.calculateSellingPrice = F32.mul (F32.ofInt d.priceOfPledge) ⟨10905190, -23⟩ ∧
      |d.calculateSellingPrice.toRat - (d.priceOfPledge : ℚ) * (130 / 100)|
        ≤ |(d.priceOfPledge : ℚ)| / 2 ^ 22) ∧
    (∀ allowedPhoneCall, d.cls = DeviceClass.Tablet allowedPhoneCall →
      d.calculateSellingPrice = F32.mul (F32.ofInt d.priceOfPledge) ⟨10905190, -23⟩ ∧
      |d.calculateSellingPrice.toRat - (d.priceOfPledge : ℚ) * (130 / 100)|
        ≤ |(d.priceOfPledge : ℚ)| / 2 ^ 22) ∧
    (d.cls = DeviceClass.ElectronicDevice →
      d.calculateSellingPrice = F32.ofInt d.priceOfPledge ∧
      |d.calculateSellingPrice.toRat - (d.priceOfPledge : ℚ)|
        ≤ |(d.priceOfPledge : ℚ)| / 2 ^ 24 ∧
      (d.priceOfPledge.natAbs < 2 ^ 24 →
        d.calculateSellingPrice.toRat = (d.priceOfPledge : ℚ))) ∧
    (∀ e : ElectronicDevice, e.priceOfPledge = d.priceOfPledge →
      (e.cls = d.cls ∨ ∃ a b, e.cls = DeviceClass.Tablet a ∧ d.cls = DeviceClass.Tablet b) →
      e.calculateSellingPrice = d.calculateSellingPrice) := by
  have hd := calculateSellingPrice_eq d
  have b140 := F32.markup_error d.priceOfPledge ⟨11744051, -23⟩ (140 / 100)
    (by norm_num [F32.toRat]) (by norm_num [F32.toRat])
    (by rw [abs_le]; constructor <;> norm_num [F32.toRat])
  have b130 := F32.markup_error d.priceOfPledge ⟨10905190, -23⟩ (130 / 100)
    (by norm_num [F32.toRat]) (by norm_num [F32.toRat])
    (by rw [abs_le]; constructor <;> norm_num [F32.toRat])
  refine ⟨?_, ?_, ?_, ?_, ?_⟩
  · intro hc
    rw [hc] at hd
    rw [hd]
    exact ⟨rfl, b140⟩
  · intro hc
    rw [hc] at hd
    rw [hd]
    exact ⟨rfl, b130⟩
  · intro c hc
    rw [hc] at hd
    rw [hd]
    exact ⟨rfl, b130⟩
  · intro hc
    rw [hc] at hd
    rw [hd]
    exact ⟨rfl, F32.ofInt_error _, F32.ofInt_toRat _⟩
  · intro e hp hcls
    have he := calculateSellingPrice_eq e
    rw [he, hd, hp]
    rcases hcls with h | ⟨a, b, ha, hb⟩
    · rw [h]
    · rw [ha, hb]

end PawnShopModel
